import Mathlib

/-!
# go-command: remote command execution over SSH (`ssh.go`, `scp.go`)

A shallow embedding of the remote backend of the `go-command` package.

* A Go `string` is a byte sequence; it is modelled by `String`, one character
  standing for one byte.
* A Go `error` value is modelled by its message; `Option GoError` is the
  nil-able `error`.
* Everything outside the package (the SSH transport, the file system, the
  `filepath` and `shellquote` libraries) is an `Env` of oracles.  Each oracle
  sees the history of external calls made so far, so a transport may answer
  the same request differently at different times.
* A function with side effects takes the history (`Trace`) and returns its
  result together with the extended history.
-/

set_option autoImplicit false
set_option linter.dupNamespace false

namespace GoCommand

/-! ## Strings and formatting (`fmt`, `strings`) -/

/-- The message of a Go `error` value. -/
abbrev GoError := String

/-- The verb `%d` of `fmt` on a non-negative integer: decimal digits. -/
def decimal (n : Nat) : String := String.mk (Nat.toDigits 10 n)

/-- The verb `%d` of `fmt` on an `int` or `int64`. -/
def fmtD (n : Int) : String :=
  if n < 0 then "-" ++ decimal n.natAbs else decimal n.toNat

/-- The octal digits of `n`, most significant first (the verb `%o`). -/
def octalDigits (n : Nat) : List Char := Nat.toDigits 8 n

/-- The verb `%#o` of `fmt` on an unsigned integer: the octal digits, with a
`0` put in front unless the first digit is already `0`. -/
def fmtSharpO (n : Nat) : String :=
  match octalDigits n with
  | [] => "0"
  | c :: cs => if c ≠ '0' then String.mk ('0' :: c :: cs) else String.mk (c :: cs)

/-- The library function `strings.HasSuffix`. -/
def HasSuffix (s suffix : String) : Bool := suffix.data.isSuffixOf s.data

/-- Scan of `strings.LastIndex`: the greatest position `i + k` at which `sub`
starts in the text `l` that begins at position `i`, or `-1`. -/
def lastIndexFrom (sub : List Char) : List Char → Nat → Int
  | [], i => if sub = [] then (i : Int) else -1
  | c :: cs, i =>
    let r := lastIndexFrom sub cs (i + 1)
    if 0 ≤ r then r else if sub.isPrefixOf (c :: cs) then (i : Int) else -1

/-- The library function `strings.LastIndex`: index of the last instance of `substr` in `s`, or `-1`. -/
def LastIndex (s substr : String) : Int := lastIndexFrom substr.data s.data 0

/-- The slice expression `s[:hi]`; `none` is the run-time panic
"slice bounds out of range". -/
def sliceTo (s : String) (hi : Int) : Option String :=
  if 0 ≤ hi ∧ hi ≤ (s.data.length : Int) then some (String.mk (s.data.take hi.toNat)) else none

/-- The slice expression `s[lo:]`; `none` is the run-time panic
"slice bounds out of range". -/
def sliceFrom (s : String) (lo : Nat) : Option String :=
  if lo ≤ s.data.length then some (String.mk (s.data.drop lo)) else none

/-- The library function `strings.ReplaceAll` for a one-byte pattern and a one-byte replacement. -/
def replaceByte (s : String) (old new : Char) : String :=
  String.mk (s.data.map fun c => if c = old then new else c)


/-! ## The environment -/

/-- An authentication method of `golang.org/x/crypto/ssh`. -/
inductive AuthMethod where
  | password (secret : String)
  | publicKeys (key : String)
  deriving DecidableEq, Repr

/-- The fields of `ssh.ClientConfig` that `connect` sets.  `Auth` is a slice
of nil-able interface values.  `Timeout` is in seconds.  The
`HostKeyCallback` that `connect` installs returns `nil` for every host. -/
structure ClientConfig where
  User : String
  Auth : List (Option AuthMethod)
  Timeout : Nat
  deriving DecidableEq, Repr

/-- One call that leaves the package. -/
inductive Event where
  | readFile (file : String)
  | dial (network addr : String) (cfg : ClientConfig)
  | clientClose
  | newSession
  | combinedOutput (cmd : String)
  | stdinPipe
  | pipeClose
  | start (cmd : String)
  | pipeWrite (bytes : String)
  | wait
  | stat (path : String)
  | fileOpen (path : String)
  | fileStat (path : String)
  | fileClose (path : String)
  | abs (dir : String)
  | walk (root : String)
  deriving DecidableEq, Repr

/-- The history of external calls, oldest first. -/
abbrev Trace := List Event

/-- What `os.FileInfo` tells the package about a file. -/
structure FileInfo where
  IsDir : Bool
  Size : Int
  Perm : Nat
  deriving DecidableEq, Repr

/-- One call of the walk function by `filepath.Walk`. -/
structure Visit where
  path : String
  info : Option FileInfo
  err : Option GoError
  deriving DecidableEq, Repr

/-- The outcome of `ssh.Dial`: a live client, an error value, or a run-time
panic inside the library, such as the nil dereference on a nil entry of
`Auth` when the server asks for authentication. -/
inductive DialResult where
  | client
  | error (err : GoError)
  | panic (msg : String)
  deriving DecidableEq, Repr

/-- The collaborators of the package.  The pure library functions come first,
then the oracles, each of which answers from the history so far. -/
structure Env where
  /-- The library constant `filepath.Separator`. -/
  Separator : Char
  /-- The library function `filepath.Base`. -/
  filepathBase : String → String
  /-- The library function `path.Base`. -/
  pathBase : String → String
  /-- The library function `shellquote.Join`. -/
  shellquoteJoin : List String → String
  /-- The library function `ssh.ParsePrivateKey`. -/
  parsePrivateKey : String → Except GoError String
  /-- The library function `ioutil.ReadFile`. -/
  readFile : Trace → String → Except GoError String
  /-- The library function `ssh.Dial`. -/
  dial : Trace → String → String → ClientConfig → DialResult
  /-- The library function `Client.NewSession`. -/
  newSession : Trace → Option GoError
  /-- The library function `Session.CombinedOutput`. -/
  combinedOutput : Trace → String → String × Option GoError
  /-- The library function `Session.StdinPipe`. -/
  stdinPipe : Trace → Option GoError
  /-- The result of `Write` on a standard-input pipe that is still open. -/
  pipeWrite : Trace → String → Option GoError
  /-- The library function `Session.Start`. -/
  start : Trace → String → Option GoError
  /-- The library function `Session.Wait`. -/
  wait : Trace → Option GoError
  /-- The library function `os.IsNotExist` of the error of `os.Stat`. -/
  statNotExist : Trace → String → Bool
  /-- The library function `os.Open`; on success the blocks of bytes that the
  successive calls of `Read` on the file return until its end. -/
  fileOpen : Trace → String → Except GoError (List String)
  /-- The library function `File.Stat`. -/
  fileStat : Trace → String → Except GoError FileInfo
  /-- The library function `filepath.Abs`. -/
  abs : Trace → String → String × Option GoError
  /-- The calls `filepath.Walk` makes while the walk function returns `nil`. -/
  walk : Trace → String → List Visit

/-- A live `*ssh.Client`. -/
structure Client where
  remote : String
  deriving DecidableEq, Repr

/-- A live `*ssh.Session`. -/
structure Session where
  cli : Client
  deriving DecidableEq, Repr

/-- The outcome of a Go call that may panic. -/
inductive Res (α : Type) where
  | ret (a : α)
  | panic (msg : String)
  deriving DecidableEq, Repr

/-- The library function `filepath.ToSlash`. -/
def ToSlash (env : Env) (path : String) : String :=
  if env.Separator = '/' then path else replaceByte path env.Separator '/'

/-! ## `scp.go` -/

/-- The text `fmt.Fprintf(w, "C%#o %d %s \n", mode, size, fileName)` formats. -/
def copyHeader (mode : Nat) (size : Int) (fileName : String) : String :=
  "C" ++ fmtSharpO mode ++ " " ++ fmtD size ++ " " ++ fileName ++ " \n"

/-- Whether the standard-input pipe opened last in a history is still open,
`o` telling whether one was open before the history. -/
def pipeOpenAux : List Event → Bool → Bool
  | [], o => o
  | Event.stdinPipe :: es, _ => pipeOpenAux es true
  | Event.pipeClose :: es, _ => pipeOpenAux es false
  | _ :: es, o => pipeOpenAux es o

/-- Whether the standard-input pipe opened last in a history is still open. -/
def pipeOpen (h : Trace) : Bool := pipeOpenAux h false

/-- The result of `Write` on the standard-input pipe: once `Close` has been
called on the pipe it has sent end-of-file and every `Write` returns `EOF`. -/
def pipeWriteResult (env : Env) (h : Trace) (bytes : String) : Option GoError :=
  if pipeOpen h then env.pipeWrite h bytes else some "EOF"

/-- The library function `io.Copy` into the standard-input pipe.  The list
holds the blocks the successive calls of `Read` return until the end of the
source.  An empty block is not written; the copy stops after the first
`Write` that fails. -/
def ioCopy (env : Env) : List String → Trace → Trace
  | [], h => h
  | b :: bs, h =>
    if b = "" then ioCopy env bs h
    else
      match pipeWriteResult env h b with
      | some _ => h ++ [Event.pipeWrite b]
      | none => ioCopy env bs (h ++ [Event.pipeWrite b])

/-- The function `copy` of `scp.go`.  `contents` holds the blocks the reader
returns until its end.  `Fprintf` and `Fprint` each make one `Write`, whose
error is dropped.  The result of `session.Wait`, which the source obtains in
a goroutine, is received after the writes. -/
def copy (env : Env) (size : Int) (mode : Nat) (fileName : String) (contents : List String)
    (destination : String) (_session : Session) (h : Trace) : Option GoError × Trace :=
  match env.stdinPipe h with
  | some err => (some err, h ++ [Event.stdinPipe])
  | none =>
    let h1 := h ++ [Event.stdinPipe, Event.pipeClose]
    let cmd := env.shellquoteJoin ["scp", "-t", destination]
    match env.start h1 cmd with
    | some err => (some err, h1 ++ [Event.start cmd])
    | none =>
      let h2 := h1 ++ [Event.start cmd, Event.pipeWrite (copyHeader mode size fileName)]
      let h3 := ioCopy env contents h2 ++ [Event.pipeWrite "\x00"]
      (env.wait h3, h3 ++ [Event.wait])

/-- The exported `Copy`. -/
def Copy (env : Env) (size : Int) (mode : Nat) (fileName : String) (contents : List String)
    (destinationPath : String) (session : Session) (h : Trace) : Option GoError × Trace :=
  copy env size mode fileName contents destinationPath session h

/-- The function `CopyPath`. -/
def CopyPath (env : Env) (filePath destinationPath : String) (session : Session) (h : Trace) :
    Option GoError × Trace :=
  match env.fileOpen h filePath with
  | Except.error err => (some err, h ++ [Event.fileOpen filePath])
  | Except.ok f =>
    let h1 := h ++ [Event.fileOpen filePath]
    match env.fileStat h1 filePath with
    | Except.error err => (some err, h1 ++ [Event.fileStat filePath, Event.fileClose filePath])
    | Except.ok s =>
      let r := copy env s.Size s.Perm (env.pathBase filePath) f destinationPath session
        (h1 ++ [Event.fileStat filePath])
      (r.1, r.2 ++ [Event.fileClose filePath])

/-- What can reach the remote end of a session's standard input.  A pipe
opened by `StdinPipe` carries a write until `Close` is called on it; `Close`
sends end-of-file, and a later `Write` fails and transfers nothing. -/
def pipeDeliveredAux : List Event → Bool → String → String
  | [], _, acc => acc
  | Event.stdinPipe :: es, _, _ => pipeDeliveredAux es true ""
  | Event.pipeClose :: es, _, acc => pipeDeliveredAux es false acc
  | Event.pipeWrite b :: es, isOpen, acc =>
    pipeDeliveredAux es isOpen (if isOpen then acc ++ b else acc)
  | _ :: es, isOpen, acc => pipeDeliveredAux es isOpen acc

/-- The bytes delivered through the pipe opened last in `es`. -/
def pipeDelivered (es : List Event) : String := pipeDeliveredAux es false ""

/-- The bytes handed to `Write` on a standard-input pipe in `es`, delivered or not. -/
def pipeWritten : List Event → String
  | [] => ""
  | Event.pipeWrite b :: es => b ++ pipeWritten es
  | _ :: es => pipeWritten es

/-! ## `ssh.go` -/

/-- The constant `CertPassword`. -/
def CertPassword : Int := 0

/-- The constant `CertPublicKeyFile`. -/
def CertPublicKeyFile : Int := 1

/-- The constant `DefaultTimeout`. -/
def DefaultTimeout : Nat := 60

/-- The struct `SSHClient`; `Mode` has the integer type `sshMode`. -/
structure SSHClient where
  IP : String
  User : String
  Cert : String
  Port : Int
  Mode : Int
  deriving DecidableEq, Repr

/-- The constructor `NewSSHClientWithPassword`. -/
def NewSSHClientWithPassword (ip user password : String) : SSHClient :=
  { IP := ip, User := user, Port := 22, Cert := password, Mode := CertPassword }

/-- The method `GetURL`: `fmt.Sprintf("%s:%d", me.IP, me.Port)`. -/
def SSHClient.GetURL (me : SSHClient) : String := me.IP ++ ":" ++ fmtD me.Port

/-- The address `connect` hands to `ssh.Dial`: `fmt.Sprint("%s:%d", me.IP, me.Port)`.
`Sprint` takes no format: it prints its three operands one after the other
in their default formats, and puts a space between two operands only when
neither is a string. -/
def SSHClient.dialAddress (me : SSHClient) : String := "%s:%d" ++ me.IP ++ fmtD me.Port

/-- The method `readPublicKeyFile`; `none` is the nil `ssh.AuthMethod`. -/
def SSHClient.readPublicKeyFile (env : Env) (_me : SSHClient) (file : String) (h : Trace) :
    Option AuthMethod × Trace :=
  match env.readFile h file with
  | Except.error _ => (none, h ++ [Event.readFile file])
  | Except.ok buffer =>
    match env.parsePrivateKey buffer with
    | Except.error _ => (none, h ++ [Event.readFile file])
    | Except.ok key => (some (AuthMethod.publicKeys key), h ++ [Event.readFile file])

/-- The part of `connect` from the construction of the configuration on. -/
def SSHClient.dialAndDo (env : Env) (me : SSHClient) {σ : Type} (auth : List (Option AuthMethod))
    (callback : Client → σ → Trace → Res (σ × Option GoError) × Trace) (s0 : σ) (h : Trace) :
    Res (σ × Option GoError) × Trace :=
  let cfg : ClientConfig := { User := me.User, Auth := auth, Timeout := DefaultTimeout }
  match env.dial h "tcp" me.dialAddress cfg with
  | DialResult.error err => (Res.ret (s0, some err), h ++ [Event.dial "tcp" me.dialAddress cfg])
  | DialResult.panic msg => (Res.panic msg, h ++ [Event.dial "tcp" me.dialAddress cfg])
  | DialResult.client =>
    let r := callback (Client.mk me.dialAddress) s0 (h ++ [Event.dial "tcp" me.dialAddress cfg])
    (r.1, r.2 ++ [Event.clientClose])

/-- The history at which `connect` calls `ssh.Dial` and the configuration it
passes, `none` when the mode is not supported and no dial is made. -/
def SSHClient.dialCall (env : Env) (me : SSHClient) (h : Trace) : Option (Trace × ClientConfig) :=
  if me.Mode = CertPassword then
    some (h, ClientConfig.mk me.User [some (AuthMethod.password me.Cert)] DefaultTimeout)
  else if me.Mode = CertPublicKeyFile then
    some ((me.readPublicKeyFile env me.Cert h).2,
      ClientConfig.mk me.User [(me.readPublicKeyFile env me.Cert h).1] DefaultTimeout)
  else none

/-- The method `connect`.  `σ` holds the variables the closure `do` captures
and assigns, `s0` their values before the call.  The deferred
`client.Close()` runs whether the closure returns or panics. -/
def SSHClient.connect (env : Env) (me : SSHClient) {σ : Type}
    (callback : Client → σ → Trace → Res (σ × Option GoError) × Trace) (s0 : σ) (h : Trace) :
    Res (σ × Option GoError) × Trace :=
  if me.Mode = CertPassword then
    me.dialAndDo env [some (AuthMethod.password me.Cert)] callback s0 h
  else if me.Mode = CertPublicKeyFile then
    let a := me.readPublicKeyFile env me.Cert h
    me.dialAndDo env [a.1] callback s0 a.2
  else
    (Res.ret (s0, some ("does not support mode: " ++ fmtD me.Mode)), h)

/-- The function `runSession`.  The deferred call is `cli.Close()`: it closes
the client, and it is registered before the error of `NewSession` is looked at.
The two closures the package passes, in `runCommand` and in `sendFile`, hold
no operation that panics, so the closure returns a plain result. -/
def runSession (env : Env) (cli : Client) {σ : Type}
    (callback : Session → σ → Trace → (σ × Option GoError) × Trace) (s0 : σ) (h : Trace) :
    (σ × Option GoError) × Trace :=
  match env.newSession h with
  | some err => ((s0, some err), h ++ [Event.newSession, Event.clientClose])
  | none =>
    let r := callback (Session.mk cli) s0 (h ++ [Event.newSession])
    (r.1, r.2 ++ [Event.clientClose])

/-- The function `runCommand`. -/
def runCommand (env : Env) (cli : Client) (cmd : String) (h : Trace) :
    (String × Option GoError) × Trace :=
  runSession env cli
    (fun _ss output h1 =>
      match env.combinedOutput h1 cmd with
      | (_, some err) => ((output, some err), h1 ++ [Event.combinedOutput cmd])
      | (r, none) => ((r, none), h1 ++ [Event.combinedOutput cmd]))
    "" h

/-- The loop of `runCommands`, `outputs` being the slice built so far. -/
def runCommandsLoop (env : Env) (cli : Client) :
    List String → List String → Trace → (List String × Option GoError) × Trace
  | [], outputs, h => ((outputs, none), h)
  | cmd :: rest, outputs, h =>
    match runCommand env cli cmd h with
    | ((_, some err), h1) => ((outputs, some err), h1)
    | ((output, none), h1) => runCommandsLoop env cli rest (outputs ++ [output]) h1

/-- The function `runCommands`. -/
def runCommands (env : Env) (cli : Client) (cmds : List String) (h : Trace) :
    (List String × Option GoError) × Trace :=
  runCommandsLoop env cli cmds [] h

/-- The function `sendFile`. -/
def sendFile (env : Env) (cli : Client) (localPath remotePath : String) (h : Trace) :
    Option GoError × Trace :=
  let r := runSession env cli
    (fun ss (_ : Unit) h1 =>
      if env.statNotExist h1 localPath then
        (((), some ("no such file or directory: " ++ localPath)), h1 ++ [Event.stat localPath])
      else
        let c := CopyPath env localPath remotePath ss (h1 ++ [Event.stat localPath])
        (((), c.1), c.2))
    () h
  (r.1.2, r.2)

/-- The struct `Path`. -/
structure Path where
  Path : String
  IsDir : Bool
  deriving DecidableEq, Repr

/-- The walk function of `getPathList` run over the calls `filepath.Walk`
makes; `Walk` stops at the first call that returns an error and returns it. -/
def walkLoop : List Visit → List Path → List Path × Option GoError
  | [], sli => (sli, none)
  | v :: vs, sli =>
    match v.info with
    | none =>
      match v.err with
      | some err => (sli, some err)
      | none => walkLoop vs sli
    | some info =>
      if info.IsDir then walkLoop vs (sli ++ [Path.mk v.path true])
      else walkLoop vs (sli ++ [Path.mk v.path false])

/-- The function `getPathList`. -/
def getPathList (env : Env) (dir : String) (h : Trace) :
    (String × List Path × Option GoError) × Trace :=
  match env.abs h dir with
  | (_, some err) => (("", [], some err), h ++ [Event.abs dir])
  | (d, none) =>
    let w := walkLoop (env.walk (h ++ [Event.abs dir]) d) []
    ((d, w.1, w.2), h ++ [Event.abs dir, Event.walk d])

/-- The loop of `sendDir`. -/
def sendDirLoop (env : Env) (cli : Client) (remoteDir : String) (lastDirIndex : Nat) :
    List Path → Trace → Res (Option GoError) × Trace
  | [], h => (Res.ret none, h)
  | v :: rest, h =>
    match sliceFrom v.Path lastDirIndex with
    | none => (Res.panic "slice bounds out of range", h)
    | some suffix =>
      let remotePath := ToSlash env (remoteDir ++ suffix)
      let r : Option GoError × Trace :=
        if v.IsDir then
          let c := runCommand env cli ("mkdir -p " ++ remotePath) h
          (c.1.2, c.2)
        else sendFile env cli v.Path remotePath h
      match r.1 with
      | some err => (Res.ret (some err), r.2)
      | none => sendDirLoop env cli remoteDir lastDirIndex rest r.2

/-- The function `sendDir`. -/
def sendDir (env : Env) (cli : Client) (localDir remoteDir : String) (h : Trace) :
    Res (Option GoError) × Trace :=
  match getPathList env localDir h with
  | ((_, _, some err), h1) => (Res.ret (some err), h1)
  | ((absPath, fileList, none), h1) =>
    sendDirLoop env cli remoteDir absPath.data.length fileList h1

/-- The loop of `runShell` that appends the parameters to the command line. -/
def shellCommandLine (remotePath : String) (params : List String) : String :=
  params.foldl (fun cmd v => cmd ++ " " ++ v) remotePath

/-- The four commands `runShell` hands to `runCommands`, for the remote path
of the script.  The second literal is `"sed -i 's/\r$//'"`; in a Go
interpreted string `\r` is the carriage-return byte. -/
def shellBatch (remotePath : String) (params : List String) : List String :=
  ["chmod a+x " ++ remotePath,
   "sed -i 's/\r$//'" ++ remotePath,
   shellCommandLine remotePath params,
   "rm -f " ++ remotePath]

/-- The remote path `runShell` computes for the script. -/
def shellDest (env : Env) (filePath remotePath : String) : String :=
  ToSlash env remotePath ++ env.filepathBase filePath

/-- The function `runShell`.  A nil slice and an empty slice are both `[]`. -/
def runShell (env : Env) (cli : Client) (filePath remotePath : String) (params : List String)
    (h : Trace) : (List String × Option GoError) × Trace :=
  if !HasSuffix filePath ".sh" then (([], some "not .sh suffix"), h)
  else
    let remotePath := shellDest env filePath remotePath
    match sendFile env cli filePath remotePath h with
    | (some err, h1) => (([], some err), h1)
    | (none, h1) => runCommands env cli (shellBatch remotePath params) h1

/-- The parent-directory computation shared by the two `SendFile` methods:
`remotePath = filepath.ToSlash(remotePath)` then
`dir := remotePath[:strings.LastIndex(remotePath, "/")]`. -/
def sendFileDir (env : Env) (remotePath : String) : Option String :=
  sliceTo (ToSlash env remotePath) (LastIndex (ToSlash env remotePath) "/")

/-- The body shared by `SSHClient.SendFile` (inside its closure) and
`TransactionContext.SendFile`. -/
def sendFileBody (env : Env) (cli : Client) (localPath remotePath : String) (h : Trace) :
    Res (Option GoError) × Trace :=
  match sendFileDir env remotePath with
  | none => (Res.panic "slice bounds out of range", h)
  | some dir =>
    match runCommand env cli ("mkdir -p " ++ dir) h with
    | ((_, some err), h1) => (Res.ret (some err), h1)
    | ((_, none), h1) =>
      let r := sendFile env cli localPath (ToSlash env remotePath) h1
      (Res.ret r.1, r.2)

/-- The method `SSHClient.RunCommand`. -/
def SSHClient.RunCommand (env : Env) (me : SSHClient) (cmd : String) (h : Trace) :
    Res (String × Option GoError) × Trace :=
  me.connect env
    (fun cli _output h1 =>
      let r := runCommand env cli cmd h1
      (Res.ret (r.1.1, r.1.2), r.2))
    "" h

/-- The method `SSHClient.RunCommands`. -/
def SSHClient.RunCommands (env : Env) (me : SSHClient) (cmds : List String) (h : Trace) :
    Res (List String × Option GoError) × Trace :=
  me.connect env
    (fun cli _outputs h1 =>
      let r := runCommands env cli cmds h1
      (Res.ret (r.1.1, r.1.2), r.2))
    [] h

/-- The method `SSHClient.SendFile`. -/
def SSHClient.SendFile (env : Env) (me : SSHClient) (localPath remotePath : String) (h : Trace) :
    Res (Option GoError) × Trace :=
  let r := me.connect env
    (fun cli (_ : Unit) h1 =>
      match sendFileBody env cli localPath remotePath h1 with
      | (Res.ret err, h2) => (Res.ret ((), err), h2)
      | (Res.panic msg, h2) => (Res.panic msg, h2))
    () h
  match r with
  | (Res.ret (_, err), h1) => (Res.ret err, h1)
  | (Res.panic msg, h1) => (Res.panic msg, h1)

/-- The method `SSHClient.SendDir`. -/
def SSHClient.SendDir (env : Env) (me : SSHClient) (localDir remoteDir : String) (h : Trace) :
    Res (Option GoError) × Trace :=
  let r := me.connect env
    (fun cli (_ : Unit) h1 =>
      match sendDir env cli localDir remoteDir h1 with
      | (Res.ret err, h2) => (Res.ret ((), err), h2)
      | (Res.panic msg, h2) => (Res.panic msg, h2))
    () h
  match r with
  | (Res.ret (_, err), h1) => (Res.ret err, h1)
  | (Res.panic msg, h1) => (Res.panic msg, h1)

/-- The method `SSHClient.RunShell`.  The closure assigns the named results
`outputs` and `err` and returns `nil`; the error `connect` returns is dropped. -/
def SSHClient.RunShell (env : Env) (me : SSHClient) (filePath remotePath : String)
    (params : List String) (h : Trace) : Res (List String × Option GoError) × Trace :=
  let r := me.connect env
    (fun cli (_ : List String × Option GoError) h1 =>
      let s := runShell env cli filePath remotePath params h1
      (Res.ret (s.1, none), s.2))
    (([] : List String), (none : Option GoError)) h
  match r with
  | (Res.ret (named, _), h1) => (Res.ret named, h1)
  | (Res.panic msg, h1) => (Res.panic msg, h1)

/-- The struct `TransactionContext`. -/
structure TransactionContext where
  cli : Client
  deriving DecidableEq, Repr

/-- The method `SSHClient.RunTransaction`. -/
def SSHClient.RunTransaction (env : Env) (me : SSHClient)
    (callback : TransactionContext → Trace → Res (Option GoError) × Trace) (h : Trace) :
    Res (Option GoError) × Trace :=
  let r := me.connect env
    (fun cli (_ : Unit) h1 =>
      match callback (TransactionContext.mk cli) h1 with
      | (Res.ret err, h2) => (Res.ret ((), err), h2)
      | (Res.panic msg, h2) => (Res.panic msg, h2))
    () h
  match r with
  | (Res.ret (_, err), h1) => (Res.ret err, h1)
  | (Res.panic msg, h1) => (Res.panic msg, h1)

/-- The method `TransactionContext.RunCommand`. -/
def TransactionContext.RunCommand (env : Env) (me : TransactionContext) (cmd : String)
    (h : Trace) : (String × Option GoError) × Trace :=
  runCommand env me.cli cmd h

/-- The method `TransactionContext.RunCommands`. -/
def TransactionContext.RunCommands (env : Env) (me : TransactionContext) (cmds : List String)
    (h : Trace) : (List String × Option GoError) × Trace :=
  runCommands env me.cli cmds h

/-- The method `TransactionContext.RunShell`. -/
def TransactionContext.RunShell (env : Env) (me : TransactionContext)
    (filePath remotePath : String) (params : List String) (h : Trace) :
    (List String × Option GoError) × Trace :=
  runShell env me.cli filePath remotePath params h

/-- The method `TransactionContext.SendFile`. -/
def TransactionContext.SendFile (env : Env) (me : TransactionContext)
    (localPath remotePath : String) (h : Trace) : Res (Option GoError) × Trace :=
  sendFileBody env me.cli localPath remotePath h

/-- The method `TransactionContext.SendDir`. -/
def TransactionContext.SendDir (env : Env) (me : TransactionContext)
    (localDir remoteDir : String) (h : Trace) : Res (Option GoError) × Trace :=
  sendDir env me.cli localDir remoteDir h

/-! ## Observations on a history -/

/-- The number of `ssh.Dial` calls in a history. -/
def dialCount : Trace → Nat
  | [] => 0
  | Event.dial _ _ _ :: es => dialCount es + 1
  | _ :: es => dialCount es

/-- The number of `Client.Close` calls in a history. -/
def closeCount : Trace → Nat
  | [] => 0
  | Event.clientClose :: es => closeCount es + 1
  | _ :: es => closeCount es

/-- The commands handed to `Session.CombinedOutput` in a history, in order. -/
def executed : Trace → List String
  | [] => []
  | Event.combinedOutput cmd :: es => cmd :: executed es
  | _ :: es => executed es

/-- Whether an event is a call on the transport (dial, client, session or pipe). -/
def Event.isNetwork : Event → Bool
  | Event.dial _ _ _ => true
  | Event.clientClose => true
  | Event.newSession => true
  | Event.combinedOutput _ => true
  | Event.stdinPipe => true
  | Event.pipeClose => true
  | Event.start _ => true
  | Event.pipeWrite _ => true
  | Event.wait => true
  | _ => false

/-! ## A concrete environment -/

/-- The function `path.Base`: the last element of a slash-separated path. -/
def slashBase (p : String) : String :=
  if p = "" then "."
  else
    let stripped := (p.data.reverse.dropWhile fun c => c = '/').reverse
    let last := (stripped.reverse.takeWhile fun c => c ≠ '/').reverse
    if last = [] then "/" else String.mk last

/-- A Unix host that knows the user `root` with the password `secret`.  A
dial whose authentication list holds a nil method panics, a dial with that
password gives a client, any other dial is refused.  Every session, start,
write and wait succeeds, every command prints `out:` and its own text, no key
file is readable, every file exists, is regular, has mode 0644 and is read in
the one block `data`, and a walk of a directory visits it and the file `a`
in it. -/
def okEnv : Env where
  Separator := '/'
  filepathBase := slashBase
  pathBase := slashBase
  shellquoteJoin := fun args => " ".intercalate args
  parsePrivateKey := fun _ => Except.error "ssh: no key found"
  readFile := fun _ _ => Except.error "open: no such file or directory"
  dial := fun _ _ _ cfg =>
    if none ∈ cfg.Auth then
      DialResult.panic "invalid memory address or nil pointer dereference"
    else if cfg.Auth = [some (AuthMethod.password "secret")] then DialResult.client
    else DialResult.error "ssh: unable to authenticate"
  newSession := fun _ => none
  combinedOutput := fun _ cmd => ("out:" ++ cmd, none)
  stdinPipe := fun _ => none
  pipeWrite := fun _ _ => none
  start := fun _ _ => none
  wait := fun _ => none
  statNotExist := fun _ _ => false
  fileOpen := fun _ _ => Except.ok ["data"]
  fileStat := fun _ _ => Except.ok { IsDir := false, Size := 4, Perm := 0o644 }
  abs := fun _ dir => (dir, none)
  walk := fun _ root =>
    [{ path := root, info := some { IsDir := true, Size := 0, Perm := 0o755 }, err := none },
     { path := root ++ "/a", info := some { IsDir := false, Size := 4, Perm := 0o644 }, err := none }]

/-- The environment `okEnv` with a transport on which every command whose
text is `false` exits with a non-zero status. -/
def failEnv : Env :=
  { okEnv with
    combinedOutput := fun _ cmd =>
      if cmd = "false" then ("", some "Process exited with status 1") else ("out:" ++ cmd, none) }

/-- The environment `okEnv` with a transport that refuses every dial. -/
def noDialEnv : Env :=
  { okEnv with dial := fun _ _ _ _ => DialResult.error "dial tcp: connection refused" }

/-- A password endpoint on port 22. -/
def host : SSHClient := NewSSHClientWithPassword "10.0.0.1" "root" "secret"

/-- A private-key-file endpoint on port 22. -/
def keyHost : SSHClient :=
  { IP := "10.0.0.1", User := "root", Cert := "/root/.ssh/id_rsa", Port := 22,
    Mode := CertPublicKeyFile }

/-- Runs `step` on every element of a list in order, each from the history
the one before left; `none` as soon as one returns an error, otherwise the
outputs in order and the final history. -/
def runAll {α β : Type} (step : α → Trace → (β × Option GoError) × Trace) :
    List α → Trace → Option (List β × Trace)
  | [], h => some ([], h)
  | x :: xs, h =>
    match step x h with
    | ((_, some _), _) => none
    | ((o, none), h1) =>
      match runAll step xs h1 with
      | none => none
      | some (os, h2) => some (o :: os, h2)

/-- Whether the key file of a private-key endpoint yields no key: it cannot
be read, or what is read does not parse as a private key. -/
def keyUnusable (env : Env) (h : Trace) (file : String) : Bool :=
  match env.readFile h file with
  | Except.error _ => true
  | Except.ok buffer =>
    match env.parsePrivateKey buffer with
    | Except.error _ => true
    | Except.ok _ => false

/-- A closure for `connect` that only counts its invocations. -/
def countCalls : Client → Nat → Trace → Res (Nat × Option GoError) × Trace :=
  fun _ n h => (Res.ret (n + 1, none), h)

/-- A transaction closure that runs the given commands one after the other
on its context, whatever each returns, and then returns `nil`. -/
def commandsClosure (env : Env) :
    List String → TransactionContext → Trace → Res (Option GoError) × Trace
  | [], _, h => (Res.ret none, h)
  | cmd :: rest, ctx, h => commandsClosure env rest ctx (ctx.RunCommand env cmd h).2

/-- The command that strips the carriage returns from the file `dest` in
place: `sed -i` with the substitution as its script and `dest` as its file
operand, separated by a space as the shell requires. -/
def stripCarriageReturns (dest : String) : String := "sed -i 's/\r$//' " ++ dest

/-- The parameters of a script as they follow it on its command line: each
preceded by one space. -/
def paramsText : List String → String
  | [] => ""
  | v :: vs => " " ++ v ++ paramsText vs

/-- The commands handed to the remote end in a history, in order: those given
to `Session.CombinedOutput` and those given to `Session.Start`. -/
def remoteActions : Trace → List String
  | [] => []
  | Event.combinedOutput cmd :: es => cmd :: remoteActions es
  | Event.start cmd :: es => cmd :: remoteActions es
  | _ :: es => remoteActions es

/-- What is left of the path of an entry once the root is removed from its front. -/
def relPath (root : String) (e : Path) : String :=
  String.mk (e.Path.data.drop root.data.length)

/-- The remote path of an entry: the remote directory followed by the path of
the entry without the root, with forward slashes. -/
def entryRemotePath (env : Env) (root remoteDir : String) (e : Path) : String :=
  ToSlash env (remoteDir ++ relPath root e)

/-- The command that reaches the remote end for an entry: `mkdir -p` of its
remote path for a directory, the receiving `scp -t` on its remote path for a file. -/
def entryCommand (env : Env) (root remoteDir : String) (e : Path) : String :=
  if e.IsDir then "mkdir -p " ++ entryRemotePath env root remoteDir e
  else env.shellquoteJoin ["scp", "-t", entryRemotePath env root remoteDir e]

/-- The one remote action for an entry: `runCommand` of `mkdir -p` for a
directory, `sendFile` of the local file for a file. -/
def entryAction (env : Env) (cli : Client) (root remoteDir : String) (e : Path) (h : Trace) :
    (Unit × Option GoError) × Trace :=
  if e.IsDir then
    (((), (runCommand env cli ("mkdir -p " ++ entryRemotePath env root remoteDir e) h).1.2),
      (runCommand env cli ("mkdir -p " ++ entryRemotePath env root remoteDir e) h).2)
  else
    (((), (sendFile env cli e.Path (entryRemotePath env root remoteDir e) h).1),
      (sendFile env cli e.Path (entryRemotePath env root remoteDir e) h).2)

/-! ## Theorems -/

theorem executed_append (a b : Trace) : executed (a ++ b) = executed a ++ executed b := by
  induction a with
  | nil => simp [executed]
  | cons e es ih => cases e <;> simp [executed, ih]

/-- The three ways a call of `runCommand` can go. -/
theorem runCommand_cases (env : Env) (cli : Client) (cmd : String) (h : Trace) :
    (∃ err, env.newSession h = some err ∧
      runCommand env cli cmd h = (("", some err), h ++ [Event.newSession, Event.clientClose])) ∨
    (env.newSession h = none ∧ ∃ out err,
      env.combinedOutput (h ++ [Event.newSession]) cmd = (out, some err) ∧
      runCommand env cli cmd h =
        (("", some err), h ++ [Event.newSession, Event.combinedOutput cmd, Event.clientClose])) ∨
    (env.newSession h = none ∧ ∃ out,
      env.combinedOutput (h ++ [Event.newSession]) cmd = (out, none) ∧
      runCommand env cli cmd h =
        ((out, none), h ++ [Event.newSession, Event.combinedOutput cmd, Event.clientClose])) := by
  unfold runCommand runSession
  cases hs : env.newSession h with
  | some err => exact Or.inl ⟨err, rfl, by simp⟩
  | none =>
    right
    rcases hc : env.combinedOutput (h ++ [Event.newSession]) cmd with ⟨out, _ | err⟩
    · right; exact ⟨rfl, out, rfl, by simp [hc]⟩
    · left; exact ⟨rfl, out, err, rfl, by simp [hc]⟩

/-- The history `runCommand` leaves: the old one, then at most the one command. -/
theorem runCommand_executed (env : Env) (cli : Client) (cmd : String) (h : Trace) :
    (executed (runCommand env cli cmd h).2 = executed h ++ [cmd]) ∨
    ((runCommand env cli cmd h).1.2 ≠ none ∧ executed (runCommand env cli cmd h).2 = executed h) := by
  rcases runCommand_cases env cli cmd h with ⟨err, _, hr⟩ | ⟨_, out, err, _, hr⟩ | ⟨_, out, _, hr⟩
  · right; rw [hr]; simp [executed_append, executed]
  · left; rw [hr]; simp [executed_append, executed]
  · left; rw [hr]; simp [executed_append, executed]

/-- The slice built so far is only ever appended to by the loop of `runCommands`. -/
theorem runCommandsLoop_acc (env : Env) (cli : Client) (cmds : List String) :
    ∀ (acc : List String) (h : Trace),
      runCommandsLoop env cli cmds acc h =
        ((acc ++ (runCommandsLoop env cli cmds [] h).1.1, (runCommandsLoop env cli cmds [] h).1.2),
          (runCommandsLoop env cli cmds [] h).2) := by
  induction cmds with
  | nil => intro acc h; simp [runCommandsLoop]
  | cons cmd rest ih =>
    intro acc h
    rcases hr : runCommand env cli cmd h with ⟨⟨out, _ | err⟩, h1⟩
    · simp only [runCommandsLoop, hr]
      rw [ih (acc ++ [out]) h1, ih ([] ++ [out]) h1]
      simp
    · simp [runCommandsLoop, hr]

theorem runCommands_nil (env : Env) (cli : Client) (h : Trace) :
    runCommands env cli [] h = (([], none), h) := rfl

theorem runCommands_cons_err (env : Env) (cli : Client) (cmd : String) (rest : List String)
    (h h1 : Trace) (out : String) (err : GoError)
    (hr : runCommand env cli cmd h = ((out, some err), h1)) :
    runCommands env cli (cmd :: rest) h = (([], some err), h1) := by
  simp [runCommands, runCommandsLoop, hr]

theorem runCommands_cons_ok (env : Env) (cli : Client) (cmd : String) (rest : List String)
    (h h1 : Trace) (out : String) (hr : runCommand env cli cmd h = ((out, none), h1)) :
    runCommands env cli (cmd :: rest) h =
      ((out :: (runCommands env cli rest h1).1.1, (runCommands env cli rest h1).1.2),
        (runCommands env cli rest h1).2) := by
  simp only [runCommands, runCommandsLoop, hr]
  rw [runCommandsLoop_acc]
  simp

/-- C1 (as amended): `runCommands` runs the commands in order through
`runCommand`.  There is a number `k` of leading commands that all succeed;
the returned list holds exactly their `k` outputs, in order.  Either `k` is
the number of commands and the error is nil, or command `k` fails, the error
returned is its error, the list has no entry for it, and the history ends
with that command: the commands executed are the first `k`, followed at most
by the failing one, and none after it. -/
theorem runCommands_stops_at_first_failure (env : Env) (cli : Client) (cmds : List String) :
    ∀ h : Trace, ∃ (k : Nat) (hk : Trace),
      k ≤ cmds.length ∧
      runAll (runCommand env cli) (cmds.take k) h = some ((runCommands env cli cmds h).1.1, hk) ∧
      (runCommands env cli cmds h).1.1.length = k ∧
      ((k = cmds.length ∧ (runCommands env cli cmds h).1.2 = none ∧
          (runCommands env cli cmds h).2 = hk) ∨
        (∃ cmd out err, cmds.get? k = some cmd ∧
          runCommand env cli cmd hk = ((out, some err), (runCommands env cli cmds h).2) ∧
          (runCommands env cli cmds h).1.2 = some err)) ∧
      (∃ p, executed (runCommands env cli cmds h).2 = executed h ++ p ∧
        cmds.take k <+: p ∧ p <+: cmds.take (k + 1)) := by
  induction cmds with
  | nil =>
    intro h
    exact ⟨0, h, le_refl _, rfl, rfl, Or.inl ⟨rfl, rfl, rfl⟩, [], by simp [runCommands_nil], by simp⟩
  | cons cmd rest ih =>
    intro h
    rcases hr : runCommand env cli cmd h with ⟨⟨out, _ | err⟩, h1⟩
    · obtain ⟨k, hk, hle, hall, hlen, hcase, p, hp, hpre, hsuf⟩ := ih h1
      have hex : executed h1 = executed h ++ [cmd] := by
        rcases runCommand_executed env cli cmd h with hx | ⟨hne, _⟩
        · rw [hr] at hx; exact hx
        · rw [hr] at hne; exact absurd rfl hne
      rw [runCommands_cons_ok env cli cmd rest h h1 out hr]
      refine ⟨k + 1, hk, by simpa using hle, ?_, by simp [hlen], ?_, cmd :: p, ?_, ?_, ?_⟩
      · simp [runAll, hr, hall]
      · rcases hcase with ⟨h1', h2', h3'⟩ | ⟨c, o, e, hc, hrun, herr⟩
        · exact Or.inl ⟨by simp [h1'], h2', h3'⟩
        · exact Or.inr ⟨c, o, e, by simpa using hc, hrun, herr⟩
      · simp [hp, hex]
      · simpa using hpre
      · simpa using hsuf
    · rw [runCommands_cons_err env cli cmd rest h h1 out err hr]
      refine ⟨0, h, Nat.zero_le _, rfl, rfl, Or.inr ⟨cmd, out, err, rfl, hr, rfl⟩, ?_⟩
      rcases runCommand_executed env cli cmd h with hx | ⟨_, hx⟩
      · rw [hr] at hx; exact ⟨[cmd], hx, by simp, by simp⟩
      · rw [hr] at hx; exact ⟨[], by simpa using hx, by simp, by simp⟩

/-- C1 (as stated, refuted): on a transport where `ls` succeeds and `false`
fails, `runCommands` on `ls`, `false`, `pwd` returns the failure of `false`,
the second command, but a list of one output, that of `ls`: there is no
entry for the failing command, so the list does not have the two entries of
"up to and including the first failing command". -/
theorem runCommands_omits_failing_output :
    (runCommand failEnv (Client.mk "c") "ls" []).1 = ("out:ls", none) ∧
    (runCommand failEnv (Client.mk "c") "false" (runCommand failEnv (Client.mk "c") "ls" []).2).1
      = ("", some "Process exited with status 1") ∧
    (runCommands failEnv (Client.mk "c") ["ls", "false", "pwd"] []).1
      = (["out:ls"], some "Process exited with status 1") ∧
    ¬ (runCommands failEnv (Client.mk "c") ["ls", "false", "pwd"] []).1.1.length = 1 + 1 := by
  decide

/-! ### The copy header -/

theorem toDigitsCore_eq_digits (b : Nat) (hb : 1 < b) :
    ∀ (fuel n : Nat) (ds : List Char), n < fuel → 0 < n →
      Nat.toDigitsCore b fuel n ds = (Nat.digits b n).reverse.map Nat.digitChar ++ ds := by
  intro fuel
  induction fuel with
  | zero => intro n ds h; omega
  | succ f ih =>
    intro n ds hlt hpos
    rw [Nat.digits_def' hb hpos]
    by_cases hq : n / b = 0
    · simp [Nat.toDigitsCore, hq]
    · have hq' : 0 < n / b := Nat.pos_of_ne_zero hq
      have hlt' : n / b < f := by
        have : n / b < n := Nat.div_lt_self hpos hb
        omega
      simp [Nat.toDigitsCore, hq, ih (n / b) (Nat.digitChar (n % b) :: ds) hlt' hq']

theorem toDigits_eq_digits (b : Nat) (hb : 1 < b) (n : Nat) (hpos : 0 < n) :
    Nat.toDigits b n = (Nat.digits b n).reverse.map Nat.digitChar := by
  unfold Nat.toDigits
  rw [toDigitsCore_eq_digits b hb (n + 1) n [] (by omega) hpos]
  simp

/-- An octal digit other than zero is not printed as `0`. -/
theorem digitChar_ne_zero (d : Nat) (h0 : d ≠ 0) (h8 : d < 8) : Nat.digitChar d ≠ '0' := by
  interval_cases d <;> first | contradiction | decide

/-- The verb `%#o` puts exactly one `0` before the octal digits of the number,
zero having no digits of its own. -/
theorem fmtSharpO_eq (n : Nat) :
    fmtSharpO n = String.mk ('0' :: (Nat.digits 8 n).reverse.map Nat.digitChar) := by
  rcases Nat.eq_zero_or_pos n with h0 | hpos
  · subst h0; rw [Nat.digits_zero]; decide
  · have hne : n ≠ 0 := Nat.pos_iff_ne_zero.mp hpos
    have hd : octalDigits n = (Nat.digits 8 n).reverse.map Nat.digitChar :=
      toDigits_eq_digits 8 (by decide) n hpos
    have hnil : Nat.digits 8 n ≠ [] := Nat.digits_ne_nil_iff_ne_zero.mpr hne
    have hlast := Nat.getLast_digit_ne_zero 8 hne
    have hlt : (Nat.digits 8 n).getLast hnil < 8 :=
      Nat.digits_lt_base (by decide) (List.getLast_mem hnil)
    unfold fmtSharpO
    rw [hd]
    rcases hrev : (Nat.digits 8 n).reverse with _ | ⟨d, ds⟩
    · exact absurd (List.reverse_eq_nil_iff.mp hrev) hnil
    · have hd' : d = (Nat.digits 8 n).getLast hnil := by
        have := List.head_reverse (l := Nat.digits 8 n) (by simpa using hnil)
        simp only [hrev, List.head_cons] at this
        exact this
      have : Nat.digitChar d ≠ '0' := digitChar_ne_zero d (hd' ▸ hlast) (hd' ▸ hlt)
      simp [this]

/-- The number of octal digits of a mode is at least three from 0o100 on. -/
theorem octal_length_ge_three (n : Nat) : 3 ≤ (Nat.digits 8 n).length ↔ 64 ≤ n := by
  constructor
  · intro h
    by_contra hlt
    push_neg at hlt
    rcases Nat.eq_zero_or_pos n with h0 | hpos
    · subst h0; simp at h
    · have h1 := Nat.base_pow_length_digits_le 8 n (by decide) (Nat.pos_iff_ne_zero.mp hpos)
      have h2 : 8 ^ 3 ≤ 8 ^ (Nat.digits 8 n).length := Nat.pow_le_pow_right (by decide) h
      omega
  · intro h
    by_contra hlt
    push_neg at hlt
    have h1 : n < 8 ^ (Nat.digits 8 n).length := Nat.lt_base_pow_length_digits (by decide)
    have h2 : 8 ^ (Nat.digits 8 n).length ≤ 8 ^ 2 :=
      Nat.pow_le_pow_right (by decide) (by omega)
    omega

theorem fmtD_natCast (n : Nat) : fmtD (n : Int) = Nat.repr n := by
  have h : ¬ ((n : Int) < 0) := by omega
  simp [fmtD, h, decimal, Nat.repr, List.asString]

/-- C9 (as amended): the header line is the letter `C`, then the mode as the
verb `%#o` prints it, which is one `0` followed by the octal digits of the
mode without padding, then a space, the size in decimal, a space, the file
name, a space and a newline.  The mode field has at least four digits exactly
when the mode is at least 0o100. -/
theorem copyHeader_format (mode size : Nat) (fileName : String) :
    copyHeader mode (size : Int) fileName =
      "C" ++ String.mk ('0' :: (Nat.digits 8 mode).reverse.map Nat.digitChar) ++ " " ++
        Nat.repr size ++ " " ++ fileName ++ " \n" ∧
    Nat.ofDigits 8 (Nat.digits 8 mode) = mode ∧
    (∀ d ∈ Nat.digits 8 mode, d < 8) ∧
    (4 ≤ ('0' :: (Nat.digits 8 mode).reverse.map Nat.digitChar).length ↔ 0o100 ≤ mode) := by
  refine ⟨?_, Nat.ofDigits_digits 8 mode, fun d hd => Nat.digits_lt_base (by decide) hd, ?_⟩
  · simp only [copyHeader, fmtSharpO_eq, fmtD_natCast]
  · have := octal_length_ge_three mode
    simp only [List.length_cons, List.length_map, List.length_reverse]
    omega

/-- C9 (as stated, refuted): for the permission mode 0o44 the header is
`C044 5 a.txt \n`; no run of four or more digits follows the letter `C`. -/
theorem copyHeader_mode_three_digits :
    copyHeader 0o44 5 "a.txt" = "C044 5 a.txt \n" ∧
    ¬ ∃ (ds rest : List Char), 4 ≤ ds.length ∧ (∀ c ∈ ds, c.isDigit = true) ∧
      (copyHeader 0o44 5 "a.txt").data = 'C' :: (ds ++ ' ' :: rest) := by
  have hh : copyHeader 0o44 5 "a.txt" = "C044 5 a.txt \n" := by decide
  refine ⟨hh, ?_⟩
  rintro ⟨ds, rest, hlen, hdig, heq⟩
  rw [hh] at heq
  match ds, hlen, hdig, heq with
  | a :: b :: c :: d :: tl, _, hdig, heq =>
    have hd : d = ' ' := by
      simp at heq
      exact heq.2.2.2.1.symm
    have := hdig d (by simp)
    rw [hd] at this
    exact absurd this (by decide)

/-! ### The copy exchange -/

theorem pipeDeliveredAux_reopen (a rest : List Event) :
    ∀ (o : Bool) (acc : String),
      pipeDeliveredAux (a ++ Event.stdinPipe :: rest) o acc = pipeDeliveredAux rest true "" := by
  induction a with
  | nil => intro o acc; simp [pipeDeliveredAux]
  | cons e es ih => intro o acc; cases e <;> simp [pipeDeliveredAux, ih]

theorem pipeOpenAux_append (a b : List Event) :
    ∀ o : Bool, pipeOpenAux (a ++ b) o = pipeOpenAux b (pipeOpenAux a o) := by
  induction a with
  | nil => intro o; rfl
  | cons e es ih => intro o; cases e <;> simp [pipeOpenAux, ih]

/-- What `io.Copy` adds to a history is a run of writes. -/
theorem ioCopy_trace (env : Env) (bs : List String) :
    ∀ h : Trace, ∃ ws : List String, ioCopy env bs h = h ++ ws.map Event.pipeWrite := by
  induction bs with
  | nil => intro h; exact ⟨[], by simp [ioCopy]⟩
  | cons b bs ih =>
    intro h
    by_cases hb : b = ""
    · obtain ⟨ws, hw⟩ := ih h
      exact ⟨ws, by simp [ioCopy, hb, hw]⟩
    · rcases hr : pipeWriteResult env h b with _ | err
      · obtain ⟨ws, hw⟩ := ih (h ++ [Event.pipeWrite b])
        exact ⟨b :: ws, by simp [ioCopy, hb, hr, hw]⟩
      · exact ⟨[b], by simp [ioCopy, hb, hr]⟩

/-- On a pipe that is closed `io.Copy` makes one `Write`, of the first block
that is not empty, and none when the source is empty. -/
theorem ioCopy_closed (env : Env) (bs : List String) :
    ∀ h : Trace, pipeOpen h = false →
      ioCopy env bs h = h ++ ((bs.filter fun b => b ≠ "").take 1).map Event.pipeWrite := by
  induction bs with
  | nil => intro h _; simp [ioCopy]
  | cons b bs ih =>
    intro h hc
    by_cases hb : b = ""
    · simp [ioCopy, hb, ih h hc]
    · simp [ioCopy, hb, pipeWriteResult, hc]

theorem pipeDeliveredAux_writes_closed (ws : List String) (rest : List Event) (acc : String) :
    pipeDeliveredAux (ws.map Event.pipeWrite ++ rest) false acc
      = pipeDeliveredAux rest false acc := by
  induction ws with
  | nil => rfl
  | cons w ws ih => simpa [pipeDeliveredAux] using ih

theorem executed_writes (ws : List String) : executed (ws.map Event.pipeWrite) = [] := by
  induction ws with
  | nil => rfl
  | cons w ws ih => simpa [executed] using ih

/-- Whatever the transport answers, no byte that `copy` writes is delivered:
the pipe is closed before the first write. -/
theorem copy_delivers_nothing (env : Env) (size : Int) (mode : Nat) (fileName : String)
    (contents : List String) (destination : String) (session : Session) (h : Trace) :
    pipeDelivered (copy env size mode fileName contents destination session h).2 = "" := by
  unfold pipeDelivered
  rcases hp : env.stdinPipe h with _ | err
  · rcases hs : env.start (h ++ [Event.stdinPipe, Event.pipeClose])
        (env.shellquoteJoin ["scp", "-t", destination]) with _ | err
    · obtain ⟨ws, hw⟩ := ioCopy_trace env contents
        (h ++ [Event.stdinPipe, Event.pipeClose] ++
          [Event.start (env.shellquoteJoin ["scp", "-t", destination]),
            Event.pipeWrite (copyHeader mode size fileName)])
      simp only [copy, hp, hs]
      rw [hw]
      simp only [List.append_assoc, List.cons_append, List.nil_append]
      rw [pipeDeliveredAux_reopen]
      simp only [pipeDeliveredAux]
      rw [pipeDeliveredAux_writes_closed]
      simp [pipeDeliveredAux]
    · simp [copy, hp, hs, pipeDeliveredAux_reopen, pipeDeliveredAux]
  · simp [copy, hp, pipeDeliveredAux_reopen, pipeDeliveredAux]

/-- When the pipe opens and the receiver starts, `copy` hands to `Write`, in
this order, the header, the first block of the contents that is not empty, if
there is one, and one zero byte; the pipe has been closed before. -/
theorem copy_written (env : Env) (size : Int) (mode : Nat) (fileName : String)
    (contents : List String) (destination : String) (session : Session) (h : Trace)
    (hp : env.stdinPipe h = none)
    (hs : env.start (h ++ [Event.stdinPipe, Event.pipeClose])
      (env.shellquoteJoin ["scp", "-t", destination]) = none) :
    (copy env size mode fileName contents destination session h).2 =
      h ++ [Event.stdinPipe, Event.pipeClose,
          Event.start (env.shellquoteJoin ["scp", "-t", destination]),
          Event.pipeWrite (copyHeader mode size fileName)] ++
        ((contents.filter fun b => b ≠ "").take 1).map Event.pipeWrite ++
        [Event.pipeWrite "\x00", Event.wait] := by
  have hc : pipeOpen (h ++ [Event.stdinPipe, Event.pipeClose] ++
      [Event.start (env.shellquoteJoin ["scp", "-t", destination]),
        Event.pipeWrite (copyHeader mode size fileName)]) = false := by
    simp [pipeOpen, pipeOpenAux_append, pipeOpenAux]
  simp only [copy, hp, hs]
  rw [ioCopy_closed env contents _ hc]
  simp

/-- C2 (the code at the failing input): copying the four bytes `data` as
`a.txt` with mode 0o644, `Copy` closes the input pipe right after opening it
and only then writes the header, the four bytes and the zero byte; nothing of
what it writes is delivered to the receiver. -/
theorem Copy_closes_pipe_before_writing :
    (Copy okEnv 4 0o644 "a.txt" ["data"] "/tmp/a.txt" (Session.mk (Client.mk "c")) []).2 =
      [Event.stdinPipe, Event.pipeClose, Event.start "scp -t /tmp/a.txt",
        Event.pipeWrite "C0644 4 a.txt \n", Event.pipeWrite "data", Event.pipeWrite "\x00",
        Event.wait] ∧
    pipeWritten
        (Copy okEnv 4 0o644 "a.txt" ["data"] "/tmp/a.txt" (Session.mk (Client.mk "c")) []).2
      = "C0644 4 a.txt \ndata\x00" ∧
    pipeDelivered
        (Copy okEnv 4 0o644 "a.txt" ["data"] "/tmp/a.txt" (Session.mk (Client.mk "c")) []).2
      = "" := by
  decide

/-! ### The connection -/

theorem dialAndDo_client (env : Env) (me : SSHClient) {σ : Type} (auth : List (Option AuthMethod))
    (callback : Client → σ → Trace → Res (σ × Option GoError) × Trace) (s0 : σ) (h : Trace)
    (hd : env.dial h "tcp" me.dialAddress ⟨me.User, auth, DefaultTimeout⟩ = DialResult.client) :
    me.dialAndDo env auth callback s0 h =
      ((callback (Client.mk me.dialAddress) s0
          (h ++ [Event.dial "tcp" me.dialAddress ⟨me.User, auth, DefaultTimeout⟩])).1,
        (callback (Client.mk me.dialAddress) s0
          (h ++ [Event.dial "tcp" me.dialAddress ⟨me.User, auth, DefaultTimeout⟩])).2 ++
          [Event.clientClose]) := by
  simp [SSHClient.dialAndDo, hd]

theorem dialAndDo_error (env : Env) (me : SSHClient) {σ : Type} (auth : List (Option AuthMethod))
    (callback : Client → σ → Trace → Res (σ × Option GoError) × Trace) (s0 : σ) (h : Trace)
    (err : GoError)
    (hd : env.dial h "tcp" me.dialAddress ⟨me.User, auth, DefaultTimeout⟩
      = DialResult.error err) :
    me.dialAndDo env auth callback s0 h =
      (Res.ret (s0, some err),
        h ++ [Event.dial "tcp" me.dialAddress ⟨me.User, auth, DefaultTimeout⟩]) := by
  simp [SSHClient.dialAndDo, hd]

theorem dialAndDo_panic (env : Env) (me : SSHClient) {σ : Type} (auth : List (Option AuthMethod))
    (callback : Client → σ → Trace → Res (σ × Option GoError) × Trace) (s0 : σ) (h : Trace)
    (msg : String)
    (hd : env.dial h "tcp" me.dialAddress ⟨me.User, auth, DefaultTimeout⟩
      = DialResult.panic msg) :
    me.dialAndDo env auth callback s0 h =
      (Res.panic msg, h ++ [Event.dial "tcp" me.dialAddress ⟨me.User, auth, DefaultTimeout⟩]) := by
  simp [SSHClient.dialAndDo, hd]

theorem readPublicKeyFile_trace (env : Env) (me : SSHClient) (file : String) (h : Trace) :
    (me.readPublicKeyFile env file h).2 = h ++ [Event.readFile file] := by
  unfold SSHClient.readPublicKeyFile
  rcases env.readFile h file with e | buffer
  · rfl
  · rcases hp : env.parsePrivateKey buffer with e | key <;> simp [hp]

theorem readPublicKeyFile_unusable (env : Env) (me : SSHClient) (file : String) (h : Trace)
    (hk : keyUnusable env h file = true) : (me.readPublicKeyFile env file h).1 = none := by
  unfold keyUnusable at hk
  unfold SSHClient.readPublicKeyFile
  rcases hr : env.readFile h file with e | buffer
  · rfl
  · rcases hp : env.parsePrivateKey buffer with e | key
    · simp [hp]
    · simp [hr, hp] at hk

/-- The method `connect` is the dial at the history and with the
configuration of `dialCall`, followed by what depends on its outcome. -/
theorem connect_eq_dialAndDo (env : Env) (me : SSHClient) {σ : Type}
    (callback : Client → σ → Trace → Res (σ × Option GoError) × Trace) (s0 : σ)
    (h h1 : Trace) (cfg : ClientConfig) (hcall : me.dialCall env h = some (h1, cfg)) :
    cfg = ⟨me.User, cfg.Auth, DefaultTimeout⟩ ∧
    me.connect env callback s0 h = me.dialAndDo env cfg.Auth callback s0 h1 := by
  unfold SSHClient.dialCall at hcall
  by_cases hm : me.Mode = CertPassword
  · simp only [hm, if_true, Option.some.injEq, Prod.mk.injEq] at hcall
    obtain ⟨rfl, rfl⟩ := hcall
    exact ⟨rfl, by simp [SSHClient.connect, hm]⟩
  · by_cases hm2 : me.Mode = CertPublicKeyFile
    · have hne : ¬ (CertPublicKeyFile = CertPassword) := by decide
      simp only [hm2, hne, if_false, if_true, Option.some.injEq, Prod.mk.injEq] at hcall
      obtain ⟨rfl, rfl⟩ := hcall
      exact ⟨rfl, by simp [SSHClient.connect, hm2, hne]⟩
    · simp [hm, hm2] at hcall

/-- The dial of `connect` comes first on the transport: before it `connect`
does nothing, or reads the key file. -/
theorem dialCall_history (env : Env) (me : SSHClient) (h h1 : Trace) (cfg : ClientConfig)
    (hcall : me.dialCall env h = some (h1, cfg)) :
    h1 = h ∨ h1 = h ++ [Event.readFile me.Cert] := by
  unfold SSHClient.dialCall at hcall
  by_cases hm : me.Mode = CertPassword
  · simp only [hm, if_true, Option.some.injEq, Prod.mk.injEq] at hcall
    exact Or.inl hcall.1.symm
  · by_cases hm2 : me.Mode = CertPublicKeyFile
    · have hne : ¬ (CertPublicKeyFile = CertPassword) := by decide
      simp only [hm2, hne, if_false, if_true, Option.some.injEq, Prod.mk.injEq,
        readPublicKeyFile_trace] at hcall
      exact Or.inr hcall.1.symm
    · simp [hm, hm2] at hcall

theorem dialCall_pre (env : Env) (me : SSHClient) (h h1 : Trace) (cfg : ClientConfig)
    (hcall : me.dialCall env h = some (h1, cfg)) :
    ∃ pre, h1 = h ++ pre ∧ ∀ e ∈ pre, e.isNetwork = false := by
  rcases dialCall_history env me h h1 cfg hcall with h0 | h0
  · exact ⟨[], by simp [h0], by simp⟩
  · refine ⟨[Event.readFile me.Cert], h0, ?_⟩
    intro e he
    simp at he
    subst he
    rfl

/-- When the dial that `connect` makes gives a client, `connect` runs the
closure on the history that ends with that dial and then closes the client. -/
theorem connect_dialled (env : Env) (me : SSHClient) {σ : Type}
    (callback : Client → σ → Trace → Res (σ × Option GoError) × Trace) (s0 : σ)
    (h h1 : Trace) (cfg : ClientConfig) (hcall : me.dialCall env h = some (h1, cfg))
    (hdial : env.dial h1 "tcp" me.dialAddress cfg = DialResult.client) :
    me.connect env callback s0 h =
      ((callback (Client.mk me.dialAddress) s0
          (h1 ++ [Event.dial "tcp" me.dialAddress cfg])).1,
        (callback (Client.mk me.dialAddress) s0
          (h1 ++ [Event.dial "tcp" me.dialAddress cfg])).2 ++ [Event.clientClose]) := by
  obtain ⟨hcfg, hc⟩ := connect_eq_dialAndDo env me callback s0 h h1 cfg hcall
  rw [hc]
  rw [hcfg] at hdial
  rw [dialAndDo_client env me cfg.Auth callback s0 h1 hdial, ← hcfg]

/-- When the dial that `connect` makes is refused, `connect` returns the
error of the dial and the closure is not run. -/
theorem connect_refused (env : Env) (me : SSHClient) {σ : Type}
    (callback : Client → σ → Trace → Res (σ × Option GoError) × Trace) (s0 : σ)
    (h h1 : Trace) (cfg : ClientConfig) (err : GoError)
    (hcall : me.dialCall env h = some (h1, cfg))
    (hdial : env.dial h1 "tcp" me.dialAddress cfg = DialResult.error err) :
    me.connect env callback s0 h =
      (Res.ret (s0, some err), h1 ++ [Event.dial "tcp" me.dialAddress cfg]) := by
  obtain ⟨hcfg, hc⟩ := connect_eq_dialAndDo env me callback s0 h h1 cfg hcall
  rw [hc]
  rw [hcfg] at hdial
  rw [dialAndDo_error env me cfg.Auth callback s0 h1 err hdial, ← hcfg]

/-- The address `connect` dials is never the one `GetURL` returns: it is four
bytes longer. -/
theorem dialAddress_ne_GetURL (me : SSHClient) : me.dialAddress ≠ me.GetURL := by
  intro h
  have hl := congrArg String.length h
  simp [SSHClient.dialAddress, SSHClient.GetURL, String.length_append] at hl
  have h5 : "%s:%d".length = 5 := by decide
  have h1 : ":".length = 1 := by decide
  omega

/-- C7 (the code at the failing input): for the endpoint 10.0.0.1, port 22,
`GetURL` returns `10.0.0.1:22`, but the address in the dial that `connect`
makes is `%s:%d10.0.0.122`: the text of the format followed by the address
and the port with nothing between them. -/
theorem connect_dials_unformatted_address :
    host.GetURL = "10.0.0.1:22" ∧
    host.dialAddress = "%s:%d10.0.0.122" ∧
    (host.RunCommand okEnv "ls" []).2 =
      [Event.dial "tcp" "%s:%d10.0.0.122" ⟨"root", [some (AuthMethod.password "secret")], 60⟩,
        Event.newSession, Event.combinedOutput "ls", Event.clientClose, Event.clientClose] := by
  decide

/-- In private-key-file mode, when the key file cannot be read or does not
parse, `connect` returns no error of its own: it reads the file and then
dials with the single authentication method nil. -/
theorem connect_unusable_key_dials_nil (env : Env) (me : SSHClient) {σ : Type}
    (callback : Client → σ → Trace → Res (σ × Option GoError) × Trace) (s0 : σ) (h : Trace)
    (hmode : me.Mode = CertPublicKeyFile) (hkey : keyUnusable env h me.Cert = true) :
    me.dialCall env h =
      some (h ++ [Event.readFile me.Cert], ⟨me.User, [none], DefaultTimeout⟩) ∧
    me.connect env callback s0 h =
      me.dialAndDo env [none] callback s0 (h ++ [Event.readFile me.Cert]) := by
  have hne : ¬ (CertPublicKeyFile = CertPassword) := by decide
  constructor
  · simp only [SSHClient.dialCall, hmode, hne, if_false, if_true, readPublicKeyFile_trace,
      readPublicKeyFile_unusable env me me.Cert h hkey]
  · simp only [SSHClient.connect, hmode, hne, if_false, if_true, readPublicKeyFile_trace,
      readPublicKeyFile_unusable env me me.Cert h hkey]

/-- C8 (the code at the failing input): the key file of `keyHost` cannot be
read.  `connect` returns no authentication-parse error: it dials the
transport with the nil authentication method.  On a server that asks for
authentication the dial panics on the nil method; on a transport that refuses
the dial `connect` returns the error of the dial.  The branch of the same
`connect` for an unsupported mode does return an error before any dial. -/
theorem connect_unreadable_key_dials_nil_method :
    keyUnusable okEnv [] keyHost.Cert = true ∧
    keyHost.connect okEnv countCalls 0 [] =
      (Res.panic "invalid memory address or nil pointer dereference",
        [Event.readFile "/root/.ssh/id_rsa",
          Event.dial "tcp" "%s:%d10.0.0.122" ⟨"root", [none], 60⟩]) ∧
    keyHost.connect noDialEnv countCalls 0 [] =
      (Res.ret (0, some "dial tcp: connection refused"),
        [Event.readFile "/root/.ssh/id_rsa",
          Event.dial "tcp" "%s:%d10.0.0.122" ⟨"root", [none], 60⟩]) ∧
    ({ keyHost with Mode := 2 } : SSHClient).connect okEnv countCalls 0 [] =
      (Res.ret (0, some "does not support mode: 2"), []) := by
  decide

/-- The method `SSHClient.RunCommands`, when its dial gives a client, is
`runCommands` on the dialled client, followed by the close of the client. -/
theorem RunCommands_established (env : Env) (me : SSHClient) (cmds : List String)
    (h h1 : Trace) (cfg : ClientConfig) (hcall : me.dialCall env h = some (h1, cfg))
    (hdial : env.dial h1 "tcp" me.dialAddress cfg = DialResult.client) :
    me.RunCommands env cmds h =
      (Res.ret (runCommands env (Client.mk me.dialAddress) cmds
          (h1 ++ [Event.dial "tcp" me.dialAddress cfg])).1,
        (runCommands env (Client.mk me.dialAddress) cmds
          (h1 ++ [Event.dial "tcp" me.dialAddress cfg])).2 ++ [Event.clientClose]) :=
  connect_dialled env me
    (fun cli (_ : List String) h2 =>
      (Res.ret ((runCommands env cli cmds h2).1.1, (runCommands env cli cmds h2).1.2),
        (runCommands env cli cmds h2).2))
    [] h h1 cfg hcall hdial

/-! ### `RunShell` and the script suffix -/

/-- C3 (as amended): for a path that does not end in `.sh`, `RunShell` on an
endpoint with a supported mode, when the dial it makes gives a client,
returns the format error; the calls it makes on the transport are that one
dial and the one close of the client: no session is opened and no command or
copy is issued. -/
theorem RunShell_rejects_after_dial (env : Env) (me : SSHClient)
    (filePath remotePath : String) (params : List String) (h h1 : Trace) (cfg : ClientConfig)
    (hsuf : HasSuffix filePath ".sh" = false)
    (hcall : me.dialCall env h = some (h1, cfg))
    (hdial : env.dial h1 "tcp" me.dialAddress cfg = DialResult.client) :
    me.RunShell env filePath remotePath params h =
      (Res.ret ([], some "not .sh suffix"),
        h1 ++ [Event.dial "tcp" me.dialAddress cfg, Event.clientClose]) ∧
    ∃ pre, h1 = h ++ pre ∧ ∀ e ∈ pre, e.isNetwork = false := by
  have hc := connect_dialled env me
    (fun cli (_ : List String × Option GoError) h2 =>
      (Res.ret ((runShell env cli filePath remotePath params h2).1, (none : Option GoError)),
        (runShell env cli filePath remotePath params h2).2))
    (([] : List String), (none : Option GoError)) h h1 cfg hcall hdial
  refine ⟨?_, dialCall_pre env me h h1 cfg hcall⟩
  unfold SSHClient.RunShell
  simp only [hc]
  simp [runShell, hsuf]

/-- C3 (the amended claim at a concrete endpoint): the server of `okEnv`
refuses a dial with another password, accepts the one `RunShell` makes for
`host`, and the format error comes back after that dial and the close. -/
theorem RunShell_rejects_after_dial_witness :
    HasSuffix "/x/run.txt" ".sh" = false ∧
    okEnv.dial [] "tcp" host.dialAddress ⟨"root", [some (AuthMethod.password "other")], 60⟩
      = DialResult.error "ssh: unable to authenticate" ∧
    host.dialCall okEnv [] = some ([], ⟨"root", [some (AuthMethod.password "secret")], 60⟩) ∧
    host.RunShell okEnv "/x/run.txt" "/tmp/" ["a"] [] =
      (Res.ret ([], some "not .sh suffix"),
        [] ++ [Event.dial "tcp" host.dialAddress
          ⟨"root", [some (AuthMethod.password "secret")], 60⟩, Event.clientClose]) :=
  ⟨by decide, by decide, by decide,
    (RunShell_rejects_after_dial okEnv host "/x/run.txt" "/tmp/" ["a"] [] []
      ⟨"root", [some (AuthMethod.password "secret")], 60⟩ (by decide) (by decide)
      (by decide)).1⟩

/-- C3 (as stated, refuted): for the path `/x/run.txt` the format error comes
back only after a dial has been made and the client closed; and on a
transport that refuses the dial `RunShell` returns no error at all. -/
theorem RunShell_dials_before_suffix_check :
    HasSuffix "/x/run.txt" ".sh" = false ∧
    host.RunShell okEnv "/x/run.txt" "/tmp/" [] [] =
      (Res.ret ([], some "not .sh suffix"),
        [Event.dial "tcp" "%s:%d10.0.0.122" ⟨"root", [some (AuthMethod.password "secret")], 60⟩,
          Event.clientClose]) ∧
    dialCount (host.RunShell okEnv "/x/run.txt" "/tmp/" [] []).2 = 1 ∧
    (host.RunShell noDialEnv "/x/run.txt" "/tmp/" [] []).1 = Res.ret ([], none) := by
  decide

/-! ### Transactions -/

theorem closeCount_append (a b : Trace) : closeCount (a ++ b) = closeCount a + closeCount b := by
  induction a with
  | nil => simp [closeCount]
  | cons e es ih => cases e <;> simp +arith [closeCount, ih]

theorem dialCount_append (a b : Trace) : dialCount (a ++ b) = dialCount a + dialCount b := by
  induction a with
  | nil => simp [dialCount]
  | cons e es ih => cases e <;> simp +arith [dialCount, ih]

theorem closeCount_of_not_network (pre : Trace) (hpre : ∀ e ∈ pre, e.isNetwork = false) :
    closeCount pre = 0 := by
  induction pre with
  | nil => rfl
  | cons e es ih =>
    have he := hpre e (by simp)
    have hes := ih (fun x hx => hpre x (by simp [hx]))
    cases e <;> first | exact hes | exact absurd he (by decide)

theorem dialCount_of_not_network (pre : Trace) (hpre : ∀ e ∈ pre, e.isNetwork = false) :
    dialCount pre = 0 := by
  induction pre with
  | nil => rfl
  | cons e es ih =>
    have he := hpre e (by simp)
    have hes := ih (fun x hx => hpre x (by simp [hx]))
    cases e <;> first | exact hes | exact absurd he (by simp [Event.isNetwork])

/-- Every call of `runCommand` closes the client once and dials nothing. -/
theorem runCommand_counts (env : Env) (cli : Client) (cmd : String) (h : Trace) :
    closeCount (runCommand env cli cmd h).2 = closeCount h + 1 ∧
    dialCount (runCommand env cli cmd h).2 = dialCount h := by
  rcases runCommand_cases env cli cmd h with ⟨err, _, hr⟩ | ⟨_, out, err, _, hr⟩ | ⟨_, out, _, hr⟩ <;>
    rw [hr] <;> simp [closeCount_append, dialCount_append, closeCount, dialCount]

theorem commandsClosure_counts (env : Env) (ctx : TransactionContext) (cmds : List String) :
    ∀ h : Trace,
      closeCount (commandsClosure env cmds ctx h).2 = closeCount h + cmds.length ∧
      dialCount (commandsClosure env cmds ctx h).2 = dialCount h := by
  induction cmds with
  | nil => intro h; simp [commandsClosure]
  | cons cmd rest ih =>
    intro h
    have hc := runCommand_counts env ctx.cli cmd h
    have hi := ih (runCommand env ctx.cli cmd h).2
    simp only [commandsClosure, TransactionContext.RunCommand, List.length_cons]
    omega

/-- A transaction whose closure runs `n` commands on its context dials once
and calls `Close` on the client `n + 1` times: once in `runSession` for each
command, and once in `connect`. -/
theorem RunTransaction_close_count (env : Env) (me : SSHClient) (cmds : List String)
    (h h1 : Trace) (cfg : ClientConfig) (hcall : me.dialCall env h = some (h1, cfg))
    (hdial : env.dial h1 "tcp" me.dialAddress cfg = DialResult.client) :
    dialCount (me.RunTransaction env (commandsClosure env cmds) h).2 = dialCount h + 1 ∧
    closeCount (me.RunTransaction env (commandsClosure env cmds) h).2
      = closeCount h + cmds.length + 1 := by
  have hc := connect_dialled env me
    (fun cli (_ : Unit) h2 =>
      match commandsClosure env cmds (TransactionContext.mk cli) h2 with
      | (Res.ret err, h3) => (Res.ret ((), err), h3)
      | (Res.panic msg, h3) => (Res.panic msg, h3))
    () h h1 cfg hcall hdial
  obtain ⟨pre, hh1, hpre⟩ := dialCall_pre env me h h1 cfg hcall
  have hcnt := commandsClosure_counts env (TransactionContext.mk (Client.mk me.dialAddress)) cmds
    (h1 ++ [Event.dial "tcp" me.dialAddress cfg])
  have hp1 := closeCount_of_not_network pre hpre
  have hp2 := dialCount_of_not_network pre hpre
  have htr : (me.RunTransaction env (commandsClosure env cmds) h).2 =
      (commandsClosure env cmds (TransactionContext.mk (Client.mk me.dialAddress))
        (h1 ++ [Event.dial "tcp" me.dialAddress cfg])).2 ++ [Event.clientClose] := by
    unfold SSHClient.RunTransaction
    simp only [hc]
    rcases commandsClosure env cmds (TransactionContext.mk (Client.mk me.dialAddress))
      (h1 ++ [Event.dial "tcp" me.dialAddress cfg]) with ⟨_ | _, h2⟩ <;> rfl
  rw [htr]
  subst hh1
  simp only [closeCount_append, dialCount_append] at hcnt ⊢
  have e1 : closeCount [Event.clientClose] = 1 := rfl
  have e2 : dialCount [Event.clientClose] = 0 := rfl
  have e3 : closeCount [Event.dial "tcp" me.dialAddress cfg] = 0 := rfl
  have e4 : dialCount [Event.dial "tcp" me.dialAddress cfg] = 1 := rfl
  omega

/-- C4 (the code at the failing input): a transaction whose closure performs
the one operation `RunCommand("ls")` dials once, and `Close` is invoked on
the client twice: by `runSession` when the command is done, and by `connect`
when the closure returns. -/
theorem RunTransaction_closes_client_twice :
    (host.RunTransaction okEnv (commandsClosure okEnv ["ls"]) []).2 =
      [Event.dial "tcp" "%s:%d10.0.0.122" ⟨"root", [some (AuthMethod.password "secret")], 60⟩,
        Event.newSession, Event.combinedOutput "ls", Event.clientClose, Event.clientClose] ∧
    dialCount (host.RunTransaction okEnv (commandsClosure okEnv ["ls"]) []).2 = 1 ∧
    closeCount (host.RunTransaction okEnv (commandsClosure okEnv ["ls"]) []).2 = 2 ∧
    ¬ closeCount (host.RunTransaction okEnv (commandsClosure okEnv ["ls"]) []).2 ≤ 1 := by
  decide

/-! ### `runShell` -/

theorem shellCommandLine_foldl (params : List String) :
    ∀ acc : String,
      params.foldl (fun cmd v => cmd ++ " " ++ v) acc = acc ++ paramsText params := by
  induction params with
  | nil => intro acc; simp [paramsText]
  | cons v vs ih =>
    intro acc
    rw [List.foldl_cons, ih]
    simp only [paramsText, String.append_assoc]

/-- The third command is the remote path followed by each parameter, each
preceded by one space. -/
theorem shellCommandLine_eq (remotePath : String) (params : List String) :
    shellCommandLine remotePath params = remotePath ++ paramsText params :=
  shellCommandLine_foldl params remotePath

/-- Once the script is sent, `runShell` hands its four commands to
`runCommands`, for the remote path made of the normalised directory and the
base name of the script. -/
theorem runShell_batch (env : Env) (cli : Client) (filePath remotePath : String)
    (params : List String) (h h1 : Trace) (hsuf : HasSuffix filePath ".sh" = true)
    (hsend : sendFile env cli filePath (shellDest env filePath remotePath) h = (none, h1)) :
    runShell env cli filePath remotePath params h =
      runCommands env cli (shellBatch (shellDest env filePath remotePath) params) h1 := by
  simp [runShell, hsuf, hsend]

/-- When the first two commands of a batch of four succeed and the third
fails, `runCommands` returns the error of the third with the two outputs, and
the history is the one the third command left: the fourth is not run. -/
theorem runCommands_third_fails (env : Env) (cli : Client) (c1 c2 c3 c4 : String)
    (h1 h2 h3 h4 : Trace) (o1 o2 o3 : String) (err : GoError)
    (r1 : runCommand env cli c1 h1 = ((o1, none), h2))
    (r2 : runCommand env cli c2 h2 = ((o2, none), h3))
    (r3 : runCommand env cli c3 h3 = ((o3, some err), h4)) :
    runCommands env cli [c1, c2, c3, c4] h1 = (([o1, o2], some err), h4) := by
  rw [runCommands_cons_ok env cli c1 _ h1 h2 o1 r1, runCommands_cons_ok env cli c2 _ h2 h3 o2 r2,
    runCommands_cons_err env cli c3 _ h3 h4 o3 err r3]

/-- The second command of the batch is never the command that strips the
carriage returns from the script: the space before the file operand is missing. -/
theorem shellBatch_second_ne (remotePath : String) (params : List String) :
    (shellBatch remotePath params).get? 1 ≠ some (stripCarriageReturns remotePath) := by
  intro h
  simp only [shellBatch, List.get?_cons_succ, List.get?_cons_zero, Option.some.injEq] at h
  have hl := congrArg String.length h
  simp only [stripCarriageReturns, String.length_append] at hl
  have e1 : "sed -i 's/\r$//'".length = 15 := by decide
  have e2 : "sed -i 's/\r$//' ".length = 16 := by decide
  omega

/-- C5 (the code at the failing input): for the script `/x/run.sh`, the
remote directory `/tmp/` and the parameters `a`, `b`, the destination is
`/tmp/run.sh` and the four commands run in the order grant, strip, invoke,
remove; but the second is `sed -i 's/\r$//'/tmp/run.sh`, the substitution and
the destination written as one word, not the command that strips the carriage
returns from `/tmp/run.sh`. -/
theorem runShell_strip_command_fused :
    shellDest okEnv "/x/run.sh" "/tmp/" = "/tmp/run.sh" ∧
    executed (runShell okEnv (Client.mk "c") "/x/run.sh" "/tmp/" ["a", "b"] []).2 =
      ["chmod a+x /tmp/run.sh", "sed -i 's/\r$//'/tmp/run.sh", "/tmp/run.sh a b",
        "rm -f /tmp/run.sh"] ∧
    stripCarriageReturns "/tmp/run.sh" = "sed -i 's/\r$//' /tmp/run.sh" ∧
    (executed (runShell okEnv (Client.mk "c") "/x/run.sh" "/tmp/" ["a", "b"] []).2).get? 1
      ≠ some (stripCarriageReturns "/tmp/run.sh") := by
  decide

/-! ### The parent directory of `SendFile` -/

/-- What `strings.LastIndex` finds for the separator `/`. -/
theorem lastIndexFrom_slash (l : List Char) :
    ∀ i : Nat,
      ('/' ∉ l → lastIndexFrom ['/'] l i = -1) ∧
      ('/' ∈ l → ∃ pre rest, l = pre ++ '/' :: rest ∧ '/' ∉ rest ∧
        lastIndexFrom ['/'] l i = ((i + pre.length : Nat) : Int)) := by
  induction l with
  | nil => intro i; simp [lastIndexFrom]
  | cons c cs ih =>
    intro i
    obtain ⟨ihn, ihy⟩ := ih (i + 1)
    by_cases hcs : '/' ∈ cs
    · obtain ⟨pre, rest, hl, hr, hv⟩ := ihy hcs
      refine ⟨fun hn => absurd (List.mem_cons_of_mem c hcs) hn, fun _ => ?_⟩
      refine ⟨c :: pre, rest, by simp [hl], hr, ?_⟩
      have h0 : (0 : Int) ≤ ((i + 1 + pre.length : Nat) : Int) := Int.ofNat_nonneg _
      simp only [lastIndexFrom, hv, h0, if_true, List.length_cons]
      congr 1
      omega
    · have hv := ihn hcs
      by_cases hc : c = '/'
      · subst hc
        refine ⟨fun hn => absurd (List.mem_cons_self _ _) hn, fun _ => ?_⟩
        refine ⟨[], cs, rfl, hcs, ?_⟩
        simp [lastIndexFrom, hv, List.isPrefixOf]
      · refine ⟨fun _ => ?_, fun hy => ?_⟩
        · have hc' : ¬ ('/' = c) := fun h => hc h.symm
          simp [lastIndexFrom, hv, List.isPrefixOf, hc']
        · rcases List.mem_cons.mp hy with h1 | h1
          · exact absurd h1.symm hc
          · exact absurd h1 hcs

/-- The slice of `SendFile` is out of range exactly when the normalised path
has no `/`. -/
theorem sendFileDir_none (env : Env) (remotePath : String)
    (hn : '/' ∉ (ToSlash env remotePath).data) : sendFileDir env remotePath = none := by
  have h := (lastIndexFrom_slash (ToSlash env remotePath).data 0).1 hn
  have h' : LastIndex (ToSlash env remotePath) "/" = -1 := h
  simp [sendFileDir, sliceTo, h']

theorem sendFileDir_some (env : Env) (remotePath : String)
    (hy : '/' ∈ (ToSlash env remotePath).data) :
    ∃ dir rest, sendFileDir env remotePath = some dir ∧
      ToSlash env remotePath = dir ++ "/" ++ rest ∧ '/' ∉ rest.data := by
  obtain ⟨pre, rest, hl, hr, hv⟩ := (lastIndexFrom_slash (ToSlash env remotePath).data 0).2 hy
  have h' : LastIndex (ToSlash env remotePath) "/" = ((pre.length : Nat) : Int) := by
    simpa using hv
  refine ⟨String.mk pre, String.mk rest, ?_, ?_, hr⟩
  · simp [sendFileDir, sliceTo, h', hl]
    omega
  · apply String.ext
    simp [String.data_append, hl]

theorem copy_executed (env : Env) (size : Int) (mode : Nat) (fileName : String)
    (contents : List String) (destination : String) (session : Session) (h : Trace) :
    executed (copy env size mode fileName contents destination session h).2 = executed h := by
  rcases hp : env.stdinPipe h with _ | err
  · rcases hs : env.start (h ++ [Event.stdinPipe, Event.pipeClose])
        (env.shellquoteJoin ["scp", "-t", destination]) with _ | err
    · obtain ⟨ws, hw⟩ := ioCopy_trace env contents
        (h ++ [Event.stdinPipe, Event.pipeClose] ++
          [Event.start (env.shellquoteJoin ["scp", "-t", destination]),
            Event.pipeWrite (copyHeader mode size fileName)])
      simp only [copy, hp, hs]
      rw [hw]
      simp [executed_append, executed, executed_writes]
    · simp [copy, hp, hs, executed_append, executed]
  · simp [copy, hp, executed_append, executed]

theorem CopyPath_executed (env : Env) (filePath destinationPath : String) (session : Session)
    (h : Trace) : executed (CopyPath env filePath destinationPath session h).2 = executed h := by
  rcases ho : env.fileOpen h filePath with e | f
  · simp [CopyPath, ho, executed_append, executed]
  · rcases hs : env.fileStat (h ++ [Event.fileOpen filePath]) filePath with e | s
    · simp [CopyPath, ho, hs, executed_append, executed]
    · simp [CopyPath, ho, hs, executed_append, executed, copy_executed]

/-- Sending a file runs no command through `CombinedOutput`. -/
theorem sendFile_executed (env : Env) (cli : Client) (localPath remotePath : String) (h : Trace) :
    executed (sendFile env cli localPath remotePath h).2 = executed h := by
  rcases hn : env.newSession h with _ | err
  · by_cases hst : env.statNotExist (h ++ [Event.newSession]) localPath = true
    · simp [sendFile, runSession, hn, hst, executed_append, executed]
    · simp [sendFile, runSession, hn, hst, executed_append, executed, CopyPath_executed]
  · simp [sendFile, runSession, hn, executed_append, executed]

/-- The body of `SendFile` runs one command at most, `mkdir -p` of the parent
directory, and runs it whenever the session for it opens. -/
theorem sendFileBody_executed (env : Env) (cli : Client) (localPath remotePath dir : String)
    (h : Trace) (hd : sendFileDir env remotePath = some dir) :
    ∃ p, executed (sendFileBody env cli localPath remotePath h).2 = executed h ++ p ∧
      p <+: ["mkdir -p " ++ dir] ∧ (env.newSession h = none → p = ["mkdir -p " ++ dir]) := by
  rcases runCommand_cases env cli ("mkdir -p " ++ dir) h with
    ⟨err, hns, hr⟩ | ⟨hns, out, err, _, hr⟩ | ⟨hns, out, _, hr⟩
  · refine ⟨[], ?_, by simp, fun hnone => ?_⟩
    · simp [sendFileBody, hd, hr, executed_append, executed]
    · rw [hns] at hnone
      exact absurd hnone (by simp)
  · refine ⟨["mkdir -p " ++ dir], ?_, by simp, fun _ => rfl⟩
    simp [sendFileBody, hd, hr, executed_append, executed]
  · refine ⟨["mkdir -p " ++ dir], ?_, by simp, fun _ => rfl⟩
    simp [sendFileBody, hd, hr, sendFile_executed, executed_append, executed]

/-- The method `SSHClient.SendFile`, when its dial gives a client, is the
body of `SendFile` on the dialled client, followed by the close of the client. -/
theorem SendFile_established (env : Env) (me : SSHClient) (localPath remotePath : String)
    (h h1 : Trace) (cfg : ClientConfig) (hcall : me.dialCall env h = some (h1, cfg))
    (hdial : env.dial h1 "tcp" me.dialAddress cfg = DialResult.client) :
    me.SendFile env localPath remotePath h =
      ((sendFileBody env (Client.mk me.dialAddress) localPath remotePath
          (h1 ++ [Event.dial "tcp" me.dialAddress cfg])).1,
        (sendFileBody env (Client.mk me.dialAddress) localPath remotePath
          (h1 ++ [Event.dial "tcp" me.dialAddress cfg])).2 ++ [Event.clientClose]) := by
  have hc := connect_dialled env me
    (fun cli (_ : Unit) h2 =>
      match sendFileBody env cli localPath remotePath h2 with
      | (Res.ret err, h3) => (Res.ret ((), err), h3)
      | (Res.panic msg, h3) => (Res.panic msg, h3))
    () h h1 cfg hcall hdial
  unfold SSHClient.SendFile
  simp only [hc]
  rcases sendFileBody env (Client.mk me.dialAddress) localPath remotePath
    (h1 ++ [Event.dial "tcp" me.dialAddress cfg]) with ⟨_ | _, h2⟩ <;> rfl

theorem dialCall_executed (env : Env) (me : SSHClient) (h h1 : Trace) (cfg : ClientConfig)
    (hcall : me.dialCall env h = some (h1, cfg)) : executed h1 = executed h := by
  rcases dialCall_history env me h h1 cfg hcall with h0 | h0 <;>
    simp [h0, executed_append, executed]

/-- C10 (as amended): the slice `remotePath[:LastIndex(remotePath, "/")]` is
in range exactly when the normalised remote path contains a `/`.  Then the
directory is the text before the last `/`, and `mkdir -p` of that directory
is the only command `TransactionContext.SendFile` runs, and the only one
`SSHClient.SendFile` runs when the dial it makes gives a client; each runs it
when the session for it opens.  When the normalised path has no `/`,
`TransactionContext.SendFile` panics with nothing done, and
`SSHClient.SendFile`, when the dial it makes gives a client, panics after the
dial and before any session; the deferred close of the client is the only
other call. -/
theorem SendFile_parent_slice (env : Env) (remotePath : String) :
    ((sendFileDir env remotePath).isSome = true ↔ '/' ∈ (ToSlash env remotePath).data) ∧
    (∀ dir, sendFileDir env remotePath = some dir →
      (∃ rest, ToSlash env remotePath = dir ++ "/" ++ rest ∧ '/' ∉ rest.data) ∧
      (∀ (ctx : TransactionContext) (localPath : String) (h : Trace),
        ∃ p, executed (ctx.SendFile env localPath remotePath h).2 = executed h ++ p ∧
          p <+: ["mkdir -p " ++ dir] ∧ (env.newSession h = none → p = ["mkdir -p " ++ dir])) ∧
      (∀ (me : SSHClient) (localPath : String) (h h1 : Trace) (cfg : ClientConfig),
        me.dialCall env h = some (h1, cfg) →
        env.dial h1 "tcp" me.dialAddress cfg = DialResult.client →
        ∃ p, executed (me.SendFile env localPath remotePath h).2 = executed h ++ p ∧
          p <+: ["mkdir -p " ++ dir] ∧
          (env.newSession (h1 ++ [Event.dial "tcp" me.dialAddress cfg]) = none →
            p = ["mkdir -p " ++ dir]))) ∧
    ('/' ∉ (ToSlash env remotePath).data →
      (∀ (ctx : TransactionContext) (localPath : String) (h : Trace),
        ctx.SendFile env localPath remotePath h = (Res.panic "slice bounds out of range", h)) ∧
      (∀ (me : SSHClient) (localPath : String) (h h1 : Trace) (cfg : ClientConfig),
        me.dialCall env h = some (h1, cfg) →
        env.dial h1 "tcp" me.dialAddress cfg = DialResult.client →
        me.SendFile env localPath remotePath h =
            (Res.panic "slice bounds out of range",
              h1 ++ [Event.dial "tcp" me.dialAddress cfg, Event.clientClose]) ∧
          ∃ pre, h1 = h ++ pre ∧ ∀ e ∈ pre, e.isNetwork = false)) := by
  refine ⟨?_, ?_, ?_⟩
  · constructor
    · intro hs
      by_contra hn
      rw [sendFileDir_none env remotePath hn] at hs
      exact absurd hs (by simp)
    · intro hy
      obtain ⟨dir, rest, hd, _, _⟩ := sendFileDir_some env remotePath hy
      simp [hd]
  · intro dir hdir
    have hy : '/' ∈ (ToSlash env remotePath).data := by
      by_contra hn
      rw [sendFileDir_none env remotePath hn] at hdir
      exact absurd hdir (by simp)
    obtain ⟨dir', rest, hd, hsplit, hrest⟩ := sendFileDir_some env remotePath hy
    have hdd : dir' = dir := by
      rw [hd] at hdir
      exact Option.some.inj hdir
    subst hdd
    refine ⟨⟨rest, hsplit, hrest⟩, ?_, ?_⟩
    · intro ctx localPath h
      exact sendFileBody_executed env ctx.cli localPath remotePath dir' h hd
    · intro me localPath h h1 cfg hcall hdial
      obtain ⟨p, hp, hpre, hok⟩ := sendFileBody_executed env (Client.mk me.dialAddress)
        localPath remotePath dir' (h1 ++ [Event.dial "tcp" me.dialAddress cfg]) hd
      refine ⟨p, ?_, hpre, hok⟩
      rw [SendFile_established env me localPath remotePath h h1 cfg hcall hdial]
      simp only [executed_append, hp, dialCall_executed env me h h1 cfg hcall]
      simp [executed]
  · intro hn
    have hd := sendFileDir_none env remotePath hn
    refine ⟨fun ctx localPath h => by simp [TransactionContext.SendFile, sendFileBody, hd], ?_⟩
    intro me localPath h h1 cfg hcall hdial
    refine ⟨?_, dialCall_pre env me h h1 cfg hcall⟩
    rw [SendFile_established env me localPath remotePath h h1 cfg hcall hdial]
    simp [sendFileBody, hd]

/-- C10 (the amended claim at concrete paths): for `/remote/dir/a.txt` both
methods run `mkdir -p /remote/dir` and then one copy; `a.txt` has no `/` and
both methods panic, `SSHClient.SendFile` after its dial. -/
theorem SendFile_parent_slice_witness :
    sendFileDir okEnv "/remote/dir/a.txt" = some "/remote/dir" ∧
    host.dialCall okEnv [] = some ([], ⟨"root", [some (AuthMethod.password "secret")], 60⟩) ∧
    okEnv.dial [] "tcp" host.dialAddress ⟨"root", [some (AuthMethod.password "secret")], 60⟩
      = DialResult.client ∧
    (∃ p, executed ((TransactionContext.mk (Client.mk "c")).SendFile okEnv "/local/a.txt"
        "/remote/dir/a.txt" []).2 = executed [] ++ p ∧
      p <+: ["mkdir -p " ++ "/remote/dir"] ∧
      (okEnv.newSession [] = none → p = ["mkdir -p " ++ "/remote/dir"])) ∧
    (∃ p, executed (host.SendFile okEnv "/local/a.txt" "/remote/dir/a.txt" []).2
        = executed [] ++ p ∧
      p <+: ["mkdir -p " ++ "/remote/dir"] ∧
      (okEnv.newSession ([] ++ [Event.dial "tcp" host.dialAddress
          ⟨"root", [some (AuthMethod.password "secret")], 60⟩]) = none →
        p = ["mkdir -p " ++ "/remote/dir"])) ∧
    remoteActions (host.SendFile okEnv "/local/a.txt" "/remote/dir/a.txt" []).2 =
      ["mkdir -p /remote/dir", "scp -t /remote/dir/a.txt"] ∧
    '/' ∉ (ToSlash okEnv "a.txt").data ∧
    (TransactionContext.mk (Client.mk "c")).SendFile okEnv "/l/a.txt" "a.txt" [] =
      (Res.panic "slice bounds out of range", []) ∧
    host.SendFile okEnv "/l/a.txt" "a.txt" [] =
      (Res.panic "slice bounds out of range",
        [] ++ [Event.dial "tcp" host.dialAddress
          ⟨"root", [some (AuthMethod.password "secret")], 60⟩, Event.clientClose]) :=
  ⟨by decide, by decide, by decide,
    ((SendFile_parent_slice okEnv "/remote/dir/a.txt").2.1 "/remote/dir" (by decide)).2.1
      (TransactionContext.mk (Client.mk "c")) "/local/a.txt" [],
    ((SendFile_parent_slice okEnv "/remote/dir/a.txt").2.1 "/remote/dir" (by decide)).2.2
      host "/local/a.txt" [] [] ⟨"root", [some (AuthMethod.password "secret")], 60⟩
      (by decide) (by decide),
    by decide, by decide,
    ((SendFile_parent_slice okEnv "a.txt").2.2 (by decide)).1 _ "/l/a.txt" [],
    (((SendFile_parent_slice okEnv "a.txt").2.2 (by decide)).2 host "/l/a.txt" [] []
      ⟨"root", [some (AuthMethod.password "secret")], 60⟩ (by decide) (by decide)).1⟩

/-- C10 (as stated, refuted): the path `a.txt` has no `/`, yet on a transport
that refuses the dial `SSHClient.SendFile` does not abort: it returns the
error of the dial as an error value. -/
theorem SendFile_no_slash_returns_dial_error :
    '/' ∉ (ToSlash noDialEnv "a.txt").data ∧
    host.SendFile noDialEnv "/l/a.txt" "a.txt" [] =
      (Res.ret (some "dial tcp: connection refused"),
        [Event.dial "tcp" "%s:%d10.0.0.122"
          ⟨"root", [some (AuthMethod.password "secret")], 60⟩]) := by
  decide

/-! ### `sendDir` -/

theorem remoteActions_append (a b : Trace) :
    remoteActions (a ++ b) = remoteActions a ++ remoteActions b := by
  induction a with
  | nil => simp [remoteActions]
  | cons e es ih => cases e <;> simp [remoteActions, ih]

/-- The command `runCommand` hands over, when it gets that far. -/
theorem runCommand_actions (env : Env) (cli : Client) (cmd : String) (h : Trace) :
    ∃ p, remoteActions (runCommand env cli cmd h).2 = remoteActions h ++ p ∧ p <+: [cmd] ∧
      ((runCommand env cli cmd h).1.2 = none → p = [cmd]) := by
  rcases runCommand_cases env cli cmd h with ⟨err, _, hr⟩ | ⟨_, out, err, _, hr⟩ | ⟨_, out, _, hr⟩
  · exact ⟨[], by simp [hr, remoteActions_append, remoteActions], by simp, by simp [hr]⟩
  · exact ⟨[cmd], by simp [hr, remoteActions_append, remoteActions], by simp, by simp⟩
  · exact ⟨[cmd], by simp [hr, remoteActions_append, remoteActions], by simp, by simp⟩

theorem remoteActions_writes (ws : List String) :
    remoteActions (ws.map Event.pipeWrite) = [] := by
  induction ws with
  | nil => rfl
  | cons w ws ih => simpa [remoteActions] using ih

/-- The command `copy` starts, when it gets that far. -/
theorem copy_actions (env : Env) (size : Int) (mode : Nat) (fileName : String)
    (contents : List String) (destination : String) (session : Session) (h : Trace) :
    ∃ p, remoteActions (copy env size mode fileName contents destination session h).2
        = remoteActions h ++ p ∧
      p <+: [env.shellquoteJoin ["scp", "-t", destination]] ∧
      ((copy env size mode fileName contents destination session h).1 = none →
        p = [env.shellquoteJoin ["scp", "-t", destination]]) := by
  rcases hp : env.stdinPipe h with _ | err
  · rcases hs : env.start (h ++ [Event.stdinPipe, Event.pipeClose])
        (env.shellquoteJoin ["scp", "-t", destination]) with _ | err
    · obtain ⟨ws, hw⟩ := ioCopy_trace env contents
        (h ++ [Event.stdinPipe, Event.pipeClose] ++
          [Event.start (env.shellquoteJoin ["scp", "-t", destination]),
            Event.pipeWrite (copyHeader mode size fileName)])
      refine ⟨[env.shellquoteJoin ["scp", "-t", destination]], ?_, by simp, by simp⟩
      simp only [copy, hp, hs]
      rw [hw]
      simp [remoteActions_append, remoteActions, remoteActions_writes]
    · exact ⟨[env.shellquoteJoin ["scp", "-t", destination]],
        by simp [copy, hp, hs, remoteActions_append, remoteActions], by simp, by simp⟩
  · exact ⟨[], by simp [copy, hp, remoteActions_append, remoteActions], by simp,
      by simp [copy, hp]⟩

theorem CopyPath_actions (env : Env) (filePath destinationPath : String) (session : Session)
    (h : Trace) :
    ∃ p, remoteActions (CopyPath env filePath destinationPath session h).2
        = remoteActions h ++ p ∧
      p <+: [env.shellquoteJoin ["scp", "-t", destinationPath]] ∧
      ((CopyPath env filePath destinationPath session h).1 = none →
        p = [env.shellquoteJoin ["scp", "-t", destinationPath]]) := by
  rcases ho : env.fileOpen h filePath with e | f
  · exact ⟨[], by simp [CopyPath, ho, remoteActions_append, remoteActions], by simp,
      by simp [CopyPath, ho]⟩
  · rcases hs : env.fileStat (h ++ [Event.fileOpen filePath]) filePath with e | s
    · exact ⟨[], by simp [CopyPath, ho, hs, remoteActions_append, remoteActions], by simp,
        by simp [CopyPath, ho, hs]⟩
    · obtain ⟨p, hp, hpre, hok⟩ := copy_actions env s.Size s.Perm (env.pathBase filePath) f
        destinationPath session (h ++ [Event.fileOpen filePath] ++ [Event.fileStat filePath])
      refine ⟨p, ?_, hpre, ?_⟩
      · simp only [CopyPath, ho, hs, remoteActions_append, hp]
        simp [remoteActions]
      · simpa only [CopyPath, ho, hs] using hok

/-- The command `sendFile` starts, when it gets that far. -/
theorem sendFile_actions (env : Env) (cli : Client) (localPath remotePath : String) (h : Trace) :
    ∃ p, remoteActions (sendFile env cli localPath remotePath h).2 = remoteActions h ++ p ∧
      p <+: [env.shellquoteJoin ["scp", "-t", remotePath]] ∧
      ((sendFile env cli localPath remotePath h).1 = none →
        p = [env.shellquoteJoin ["scp", "-t", remotePath]]) := by
  rcases hn : env.newSession h with _ | err
  · by_cases hst : env.statNotExist (h ++ [Event.newSession]) localPath = true
    · exact ⟨[], by simp [sendFile, runSession, hn, hst, remoteActions_append, remoteActions],
        by simp, by simp [sendFile, runSession, hn, hst]⟩
    · obtain ⟨p, hp, hpre, hok⟩ := CopyPath_actions env localPath remotePath (Session.mk cli)
        (h ++ [Event.newSession] ++ [Event.stat localPath])
      have hst' : env.statNotExist (h ++ [Event.newSession]) localPath = false := by
        simpa using hst
      have hh : h ++ [Event.newSession] ++ [Event.stat localPath] =
          h ++ [Event.newSession, Event.stat localPath] := by simp
      rw [hh] at hp hok
      refine ⟨p, ?_, hpre, ?_⟩
      · simp [sendFile, runSession, hn, hst', remoteActions_append, hp, remoteActions]
      · intro hnil
        apply hok
        simpa [sendFile, runSession, hn, hst'] using hnil
  · exact ⟨[], by simp [sendFile, runSession, hn, remoteActions_append, remoteActions],
      by simp, by simp [sendFile, runSession, hn]⟩

/-- The command of an entry reaches the remote end at most once, and once
when the action succeeds. -/
theorem entryAction_actions (env : Env) (cli : Client) (root remoteDir : String) (e : Path)
    (h : Trace) :
    ∃ p, remoteActions (entryAction env cli root remoteDir e h).2 = remoteActions h ++ p ∧
      p <+: [entryCommand env root remoteDir e] ∧
      ((entryAction env cli root remoteDir e h).1.2 = none →
        p = [entryCommand env root remoteDir e]) := by
  by_cases hd : e.IsDir = true
  · simpa [entryAction, entryCommand, hd] using
      runCommand_actions env cli ("mkdir -p " ++ entryRemotePath env root remoteDir e) h
  · simpa [entryAction, entryCommand, hd] using
      sendFile_actions env cli e.Path (entryRemotePath env root remoteDir e) h

/-- One turn of the loop of `sendDir`, for an entry whose path is at least as
long as the root. -/
theorem sendDirLoop_cons (env : Env) (cli : Client) (root remoteDir : String) (v : Path)
    (rest : List Path) (h : Trace) (hle : root.data.length ≤ v.Path.data.length) :
    sendDirLoop env cli remoteDir root.data.length (v :: rest) h =
      match (entryAction env cli root remoteDir v h).1.2 with
      | some err => (Res.ret (some err), (entryAction env cli root remoteDir v h).2)
      | none =>
        sendDirLoop env cli remoteDir root.data.length rest
          (entryAction env cli root remoteDir v h).2 := by
  have hle' : root.length ≤ v.Path.length := hle
  by_cases hd : v.IsDir = true
  · simp [sendDirLoop, sliceFrom, hle', entryAction, entryRemotePath, relPath, hd]
  · simp [sendDirLoop, sliceFrom, hle', entryAction, entryRemotePath, relPath, hd]

/-- The loop of `sendDir` runs the actions of the entries in order up to the
first that fails. -/
theorem sendDirLoop_stops_at_first_failure (env : Env) (cli : Client) (root remoteDir : String)
    (entries : List Path) (hpre : ∀ e ∈ entries, root.data <+: e.Path.data) :
    ∀ h : Trace, ∃ (k : Nat) (hk : Trace), k ≤ entries.length ∧
      (∃ us, runAll (entryAction env cli root remoteDir) (entries.take k) h = some (us, hk)) ∧
      ((k = entries.length ∧
          sendDirLoop env cli remoteDir root.data.length entries h = (Res.ret none, hk)) ∨
        (∃ e err, entries.get? k = some e ∧
          (entryAction env cli root remoteDir e hk).1.2 = some err ∧
          sendDirLoop env cli remoteDir root.data.length entries h =
            (Res.ret (some err), (entryAction env cli root remoteDir e hk).2))) ∧
      (∃ p, remoteActions (sendDirLoop env cli remoteDir root.data.length entries h).2
          = remoteActions h ++ p ∧
        (entries.take k).map (entryCommand env root remoteDir) <+: p ∧
        p <+: (entries.take (k + 1)).map (entryCommand env root remoteDir)) := by
  induction entries with
  | nil =>
    intro h
    exact ⟨0, h, le_refl _, ⟨[], rfl⟩, Or.inl ⟨rfl, rfl⟩, [], by simp [sendDirLoop], by simp,
      by simp⟩
  | cons v rest ih =>
    intro h
    have hle : root.data.length ≤ v.Path.data.length := (hpre v (by simp)).length_le
    have hstep := sendDirLoop_cons env cli root remoteDir v rest h hle
    obtain ⟨q, hq, hqpre, hqok⟩ := entryAction_actions env cli root remoteDir v h
    rcases hr : (entryAction env cli root remoteDir v h).1.2 with _ | err
    · obtain ⟨k, hk, hkle, ⟨us, hall⟩, hcase, p, hp, hp1, hp2⟩ :=
        ih (fun e he => hpre e (by simp [he])) (entryAction env cli root remoteDir v h).2
      have hq' := hqok hr
      subst hq'
      rw [hr] at hstep
      simp only at hstep
      refine ⟨k + 1, hk, by simpa using hkle, ⟨() :: us, ?_⟩, ?_, ?_⟩
      · rcases hea : entryAction env cli root remoteDir v h with ⟨⟨u, oe⟩, h2⟩
        rw [hea] at hr hall
        simp only at hr
        subst hr
        simp [runAll, hea, hall]
      · rcases hcase with ⟨h1', h2'⟩ | ⟨e, err, he, herr, hres⟩
        · exact Or.inl ⟨by simp [h1'], by rw [hstep, h2']⟩
        · exact Or.inr ⟨e, err, by simpa using he, herr, by rw [hstep, hres]⟩
      · refine ⟨entryCommand env root remoteDir v :: p, ?_, ?_, ?_⟩
        · rw [hstep, hp, hq]; simp
        · simpa using hp1
        · simpa using hp2
    · rw [hr] at hstep
      simp only at hstep
      refine ⟨0, h, Nat.zero_le _, ⟨[], rfl⟩, Or.inr ⟨v, err, rfl, hr, hstep⟩, q, ?_, by simp, ?_⟩
      · rw [hstep, hq]
      · simpa using hqpre

theorem getPathList_actions (env : Env) (dir : String) (h : Trace) :
    remoteActions (getPathList env dir h).2 = remoteActions h := by
  rcases ha : env.abs h dir with ⟨d, _ | err⟩
  · simp [getPathList, ha, remoteActions_append, remoteActions]
  · simp [getPathList, ha, remoteActions_append, remoteActions]

/-- The method `SSHClient.SendDir`, when its dial gives a client, is `sendDir`
on the dialled client, followed by the close of the client. -/
theorem SendDir_established (env : Env) (me : SSHClient) (localDir remoteDir : String)
    (h h1 : Trace) (cfg : ClientConfig) (hcall : me.dialCall env h = some (h1, cfg))
    (hdial : env.dial h1 "tcp" me.dialAddress cfg = DialResult.client) :
    me.SendDir env localDir remoteDir h =
      ((sendDir env (Client.mk me.dialAddress) localDir remoteDir
          (h1 ++ [Event.dial "tcp" me.dialAddress cfg])).1,
        (sendDir env (Client.mk me.dialAddress) localDir remoteDir
          (h1 ++ [Event.dial "tcp" me.dialAddress cfg])).2 ++ [Event.clientClose]) := by
  have hc := connect_dialled env me
    (fun cli (_ : Unit) h2 =>
      match sendDir env cli localDir remoteDir h2 with
      | (Res.ret err, h3) => (Res.ret ((), err), h3)
      | (Res.panic msg, h3) => (Res.panic msg, h3))
    () h h1 cfg hcall hdial
  unfold SSHClient.SendDir
  simp only [hc]
  rcases sendDir env (Client.mk me.dialAddress) localDir remoteDir
    (h1 ++ [Event.dial "tcp" me.dialAddress cfg]) with ⟨_ | _, h2⟩ <;> rfl

/-- C6: when the enumeration of the local directory succeeds with the root
`root` and the entries `entries`, each path beginning with the root,
`sendDir` performs the actions of the entries in enumeration order, each from
the history the one before left, as long as they succeed: `mkdir -p` of the
remote path for a directory, `sendFile` to the remote path for a file, the
remote path being the remote directory followed by the path of the entry
without the root, with forward slashes.  There is a number `k` of leading
entries whose actions all succeed.  Either `k` is the number of entries and
`sendDir` returns nil, or the action of entry `k` fails and `sendDir` returns
its error with the history that action left.  The commands that reach the
remote end are those of the first `k` entries, one each and in order,
followed at most by that of the failing entry, and none for a later entry. -/
theorem sendDir_one_action_per_entry (env : Env) (cli : Client) (localDir remoteDir : String)
    (h h1 : Trace) (root : String) (entries : List Path)
    (hlist : getPathList env localDir h = ((root, entries, none), h1))
    (hpre : ∀ e ∈ entries, root.data <+: e.Path.data) :
    (∀ e ∈ entries, e.Path = root ++ relPath root e) ∧
    ∃ (k : Nat) (hk : Trace), k ≤ entries.length ∧
      (∃ us, runAll (entryAction env cli root remoteDir) (entries.take k) h1 = some (us, hk)) ∧
      ((k = entries.length ∧ sendDir env cli localDir remoteDir h = (Res.ret none, hk)) ∨
        (∃ e err, entries.get? k = some e ∧
          (entryAction env cli root remoteDir e hk).1.2 = some err ∧
          sendDir env cli localDir remoteDir h =
            (Res.ret (some err), (entryAction env cli root remoteDir e hk).2))) ∧
      (∃ p, remoteActions (sendDir env cli localDir remoteDir h).2 = remoteActions h ++ p ∧
        (entries.take k).map (entryCommand env root remoteDir) <+: p ∧
        p <+: (entries.take (k + 1)).map (entryCommand env root remoteDir)) := by
  have hsd : sendDir env cli localDir remoteDir h =
      sendDirLoop env cli remoteDir root.data.length entries h1 := by
    simp [sendDir, hlist]
  have hact : remoteActions h1 = remoteActions h := by
    have := getPathList_actions env localDir h
    rw [hlist] at this
    exact this
  refine ⟨?_, ?_⟩
  · intro e he
    obtain ⟨t, ht⟩ := hpre e he
    apply String.ext
    simp [relPath, String.data_append, ← ht]
  · obtain ⟨k, hk, hkle, hall, hcase, p, hp, hp1, hp2⟩ :=
      sendDirLoop_stops_at_first_failure env cli root remoteDir entries hpre h1
    rw [← hsd] at hcase hp
    rw [hact] at hp
    exact ⟨k, hk, hkle, hall, hcase, p, hp, hp1, hp2⟩

/-- C6 (at a concrete tree): the directory `/src` holds the file `a`; sent to
`/dst`, it gives `mkdir -p /dst` and then one copy to `/dst/a`. -/
theorem sendDir_one_action_per_entry_witness :
    getPathList okEnv "/src" [] =
      (("/src", [Path.mk "/src" true, Path.mk "/src/a" false], none),
        [Event.abs "/src", Event.walk "/src"]) ∧
    remoteActions (sendDir okEnv (Client.mk "c") "/src" "/dst" []).2 =
      ["mkdir -p /dst", "scp -t /dst/a"] ∧
    ∃ (k : Nat) (hk : Trace), k ≤ 2 ∧
      (∃ us, runAll (entryAction okEnv (Client.mk "c") "/src" "/dst")
        ([Path.mk "/src" true, Path.mk "/src/a" false].take k)
        [Event.abs "/src", Event.walk "/src"] = some (us, hk)) ∧
      ((k = 2 ∧ sendDir okEnv (Client.mk "c") "/src" "/dst" [] = (Res.ret none, hk)) ∨
        (∃ e err, [Path.mk "/src" true, Path.mk "/src/a" false].get? k = some e ∧
          (entryAction okEnv (Client.mk "c") "/src" "/dst" e hk).1.2 = some err ∧
          sendDir okEnv (Client.mk "c") "/src" "/dst" [] =
            (Res.ret (some err), (entryAction okEnv (Client.mk "c") "/src" "/dst" e hk).2))) ∧
      (∃ p, remoteActions (sendDir okEnv (Client.mk "c") "/src" "/dst" []).2
          = remoteActions [] ++ p ∧
        ([Path.mk "/src" true, Path.mk "/src/a" false].take k).map
          (entryCommand okEnv "/src" "/dst") <+: p ∧
        p <+: ([Path.mk "/src" true, Path.mk "/src/a" false].take (k + 1)).map
          (entryCommand okEnv "/src" "/dst")) :=
  ⟨by decide, by decide,
    (sendDir_one_action_per_entry okEnv (Client.mk "c") "/src" "/dst" []
      [Event.abs "/src", Event.walk "/src"] "/src"
      [Path.mk "/src" true, Path.mk "/src/a" false] (by decide) (by decide)).2⟩

end GoCommand
